import Mathlib

/-!
Verification development for `analyze_responses.py`: a diagnostic script that
loads example JSON API responses and prints human-readable summaries.

The embedding models:
* JSON values (`Json`) as parsed by `json.load` (numbers restricted to
  integers; none of the analysed properties depend on floats),
* the recursive structure analyzer `analyze_json_structure`,
* the five category summarizers (`summarize_stop_finder`, ...),
* the driver `main` (file iteration, dispatch, missing-file handling).

Python dicts are modelled as insertion-ordered association lists with
overwrite-in-place assignment (`insertEntry`), matching `d[k] = v` and
`d.update(...)` semantics.  Operations that can raise in Python are modelled
in the `Except String` monad.
-/

set_option maxHeartbeats 1000000

namespace AnalyzeResponses

/-- A parsed JSON document, as produced by `json.load`. -/
inductive Json where
  | null : Json
  | bool (b : Bool) : Json
  | num (n : Int) : Json
  | str (s : String) : Json
  | arr (items : List Json) : Json
  | obj (entries : List (String × Json)) : Json

/-- Python truth test `bool(v)` for JSON values: `None`, `False`, `0`,
empty string/list/dict are falsy. -/
def pyTruthy : Json → Bool
  | Json.null => false
  | Json.bool b => b
  | Json.num n => n != 0
  | Json.str s => !s.isEmpty
  | Json.arr l => !l.isEmpty
  | Json.obj kvs => !kvs.isEmpty

/-- Python `isinstance(v, dict)`. -/
def isDict : Json → Bool
  | Json.obj _ => true
  | _ => false

/-- Python `isinstance(v, list)`. -/
def isList : Json → Bool
  | Json.arr _ => true
  | _ => false

/-- A scalar: neither a dict nor a list. -/
def isScalar (v : Json) : Bool := !isDict v && !isList v

/-- Python string slicing `s[:n]`: the first `n` characters. -/
def strTake (s : String) (n : Nat) : String := String.mk (s.data.take n)

/-- Python `type(v).__name__` for the JSON payload types. -/
def pyTypeName : Json → String
  | Json.null => "NoneType"
  | Json.bool _ => "bool"
  | Json.num _ => "int"
  | Json.str _ => "str"
  | Json.arr _ => "list"
  | Json.obj _ => "dict"

/-- Python `repr` of a scalar JSON value (string escaping inside the quotes
is not modelled; no analysed property depends on it). -/
def pyAtomRepr : Json → String
  | Json.null => "None"
  | Json.bool true => "True"
  | Json.bool false => "False"
  | Json.num n => toString n
  | Json.str s => "\x27" ++ s ++ "\x27"
  | Json.arr _ => ""
  | Json.obj _ => ""

/-- The textual summary `analyze_json_structure` writes for one value:
`f"object ({len(v)} keys)"`, `f"array ({len(v)} items)"`, `"array (empty)"`,
or `f"{type(v).__name__}: {repr(v)[:50]}"`. -/
def summaryOf : Json → String
  | Json.obj kvs => "object (" ++ toString kvs.length ++ " keys)"
  | Json.arr [] => "array (empty)"
  | Json.arr l => "array (" ++ toString l.length ++ " items)"
  | v => pyTypeName v ++ ": " ++ strTake (pyAtomRepr v) 50

/-- The path for key `key` under `pre`: `f"{prefix}.{key}" if prefix else key`. -/
def joinPath (pre key : String) : String :=
  if pre = "" then key else pre ++ "." ++ key

/-- Python dict assignment `d[path] = v`: overwrite in place if the key is
present, append otherwise. -/
def insertEntry : List (String × String) → String → String → List (String × String)
  | [], k, v => [(k, v)]
  | (k', v') :: rest, k, v =>
    if k' = k then (k', v) :: rest else (k', v') :: insertEntry rest k v

/-- Python `d.update(adds)`: assign every entry of `adds` in order. -/
def updateEntries (st : List (String × String)) (adds : List (String × String)) :
    List (String × String) :=
  adds.foldl (fun acc kv => insertEntry acc kv.1 kv.2) st

/-- Python dict lookup `d[q]` as an option (keys are unique in results built
from `insertEntry`, so first match is the entry). -/
def lookupEntry : List (String × String) → String → Option String
  | [], _ => none
  | (k, v) :: rest, q => if k = q then some v else lookupEntry rest q

/-- The loop body of `analyze_json_structure`, processing one `key, value`
item of the dict being analysed.  `rec` is the recursive call at depth+1. -/
def analyzeStepG (rec : Json → String → Nat → Nat → List (String × String))
    ( pre : String) (depth max_depth : Nat)
    (st : List (String × String)) (kv : String × Json) : List (String × String) :=
  let path := joinPath pre kv.1
  match kv.2 with
  | Json.obj _ =>
    updateEntries (insertEntry st path (summaryOf kv.2))
      (rec kv.2 path (depth + 1) max_depth)
  | Json.arr [] => insertEntry st path (summaryOf kv.2)
  | Json.arr (e :: _) =>
    (match e with
     | Json.obj _ =>
       updateEntries (insertEntry st path (summaryOf kv.2))
         (rec e (path ++ "[0]") (depth + 1) max_depth)
     | _ => insertEntry st path (summaryOf kv.2))
  | _ => insertEntry st path (summaryOf kv.2)

/-- Fuelled form of `analyze_json_structure`.  The Python recursion is
bounded by the `depth > max_depth` guard, so running it with fuel
`max_depth + 1 - depth` (see `analyze_json_structure`) reproduces it exactly:
fuel 0 corresponds to the guard having fired. -/
def analyzeFuel : Nat → Json → String → Nat → Nat → List (String × String)
  | 0, _, _, _, _ => []
  | fuel + 1, obj, pre, depth, max_depth =>
    if max_depth < depth then []
    else
      match obj with
      | Json.obj kvs => kvs.foldl (analyzeStepG (analyzeFuel fuel) pre depth max_depth) []
      | _ => []

/-- The loop body with the recursive call instantiated. -/
def analyzeStep (fuel : Nat) (pre : String) (depth max_depth : Nat) :
    List (String × String) → String × Json → List (String × String) :=
  analyzeStepG (analyzeFuel fuel) pre depth max_depth

/-- The function `analyze_json_structure(obj, prefix, depth, max_depth)`: recursively
analyze JSON structure, returning the mapping from path strings to value
summaries. -/
def analyze_json_structure (obj : Json) (pre : String) (depth max_depth : Nat) :
    List (String × String) :=
  analyzeFuel (max_depth + 1 - depth) obj pre depth max_depth

theorem analyzeFuel_succ_obj (fuel : Nat) (kvs : List (String × Json))
    (pre : String) (depth max_depth : Nat) :
    analyzeFuel (fuel + 1) (Json.obj kvs) pre depth max_depth =
      if max_depth < depth then []
      else kvs.foldl (analyzeStep fuel pre depth max_depth) [] := rfl

example : analyze_json_structure (Json.obj [("a", Json.num 3)]) "" 0 4 =
    [("a", "int: 3")] := by decide

example : analyze_json_structure
    (Json.obj [("a", Json.obj [("b", Json.arr [Json.num 1, Json.num 2])])]) "" 0 4 =
    [("a", "object (1 keys)"), ("a.b", "array (2 items)")] := by decide

@[simp] theorem updateEntries_nil (st : List (String × String)) :
    updateEntries st [] = st := rfl

/-- Truncation of a document at structural depth `k`: below the cut every
value becomes `null`.  Used to state that the analyzer output never
depends on parts of the document deeper than its recursion limit allows. -/
def truncJson : Nat → Json → Json
  | 0, _ => Json.null
  | k + 1, Json.obj kvs => Json.obj (kvs.map (fun kv => (kv.1, truncJson k kv.2)))
  | k + 1, Json.arr l => Json.arr (l.map (truncJson k))
  | _ + 1, v => v

theorem summaryOf_arr_cons (a : Json) (l : List Json) :
    summaryOf (Json.arr (a :: l)) = "array (" ++ toString (l.length + 1) ++ " items)" := by
  simp [summaryOf]

theorem analyzeFuel_trunc (fuel : Nat) :
    ∀ (k : Nat) (obj : Json) (pre : String) (d m : Nat), 2 * fuel ≤ k →
      analyzeFuel fuel obj pre d m = analyzeFuel fuel (truncJson k obj) pre d m := by
  induction fuel with
  | zero => intros; rfl
  | succ fuel ih =>
    intro k obj pre d m hk
    obtain ⟨k2, rfl⟩ : ∃ k2, k = k2 + 2 := ⟨k - 2, by omega⟩
    cases obj with
    | null => by_cases hmd : m < d <;> simp [analyzeFuel, truncJson, hmd]
    | bool b => by_cases hmd : m < d <;> simp [analyzeFuel, truncJson, hmd]
    | num n => by_cases hmd : m < d <;> simp [analyzeFuel, truncJson, hmd]
    | str s => by_cases hmd : m < d <;> simp [analyzeFuel, truncJson, hmd]
    | arr l => by_cases hmd : m < d <;> simp [analyzeFuel, truncJson, hmd]
    | obj kvs =>
      have htr : truncJson (k2 + 2) (Json.obj kvs) =
          Json.obj (kvs.map (fun kv => (kv.1, truncJson (k2 + 1) kv.2))) := rfl
      rw [htr, analyzeFuel_succ_obj, analyzeFuel_succ_obj]
      by_cases hmd : m < d
      · simp [hmd]
      · simp only [if_neg hmd]
        rw [List.foldl_map]
        have hstep : ∀ (st : List (String × String)) (kv : String × Json),
            analyzeStep fuel pre d m st (kv.1, truncJson (k2 + 1) kv.2) =
              analyzeStep fuel pre d m st kv := by
          intro st kv
          obtain ⟨key, value⟩ := kv
          cases value with
          | null => rfl
          | bool b => rfl
          | num n => rfl
          | str s => rfl
          | obj inner =>
            show analyzeStep fuel pre d m st
                (key, Json.obj (inner.map (fun kv => (kv.1, truncJson k2 kv.2)))) = _
            simp only [analyzeStep, analyzeStepG, summaryOf, List.length_map]
            have : analyzeFuel fuel
                (Json.obj (inner.map (fun kv => (kv.1, truncJson k2 kv.2))))
                (joinPath pre key) (d + 1) m =
                analyzeFuel fuel (Json.obj inner) (joinPath pre key) (d + 1) m := by
              have h2 : 2 * fuel ≤ k2 + 1 := by omega
              have := ih (k2 + 1) (Json.obj inner) (joinPath pre key) (d + 1) m h2
              exact this.symm
            rw [this]
          | arr l =>
            cases l with
            | nil => rfl
            | cons e rest =>
              show analyzeStep fuel pre d m st
                  (key, Json.arr (truncJson k2 e :: rest.map (truncJson k2))) = _
              cases e with
              | obj inner =>
                cases k2 with
                | zero =>
                  have hf0 : fuel = 0 := by omega
                  subst hf0
                  simp [analyzeStep, analyzeStepG, truncJson, summaryOf_arr_cons,
                    List.length_map, analyzeFuel]
                | succ k3 =>
                  have htr2 : truncJson (k3 + 1) (Json.obj inner) =
                      Json.obj (inner.map (fun kv => (kv.1, truncJson k3 kv.2))) := rfl
                  rw [htr2]
                  simp only [analyzeStep, analyzeStepG, summaryOf_arr_cons,
                    List.length_map]
                  have : analyzeFuel fuel
                      (Json.obj (inner.map (fun kv => (kv.1, truncJson k3 kv.2))))
                      (joinPath pre key ++ "[0]") (d + 1) m =
                      analyzeFuel fuel (Json.obj inner)
                        (joinPath pre key ++ "[0]") (d + 1) m := by
                    have h2 : 2 * fuel ≤ k3 + 1 := by omega
                    have := ih (k3 + 1) (Json.obj inner)
                      (joinPath pre key ++ "[0]") (d + 1) m h2
                    exact this.symm
                  rw [this]
              | null =>
                cases k2 <;>
                  simp [analyzeStep, analyzeStepG, truncJson, summaryOf_arr_cons,
                    List.length_map]
              | bool b =>
                cases k2 <;>
                  simp [analyzeStep, analyzeStepG, truncJson, summaryOf_arr_cons,
                    List.length_map]
              | num n =>
                cases k2 <;>
                  simp [analyzeStep, analyzeStepG, truncJson, summaryOf_arr_cons,
                    List.length_map]
              | str s =>
                cases k2 <;>
                  simp [analyzeStep, analyzeStepG, truncJson, summaryOf_arr_cons,
                    List.length_map]
              | arr l2 =>
                cases k2 <;>
                  simp [analyzeStep, analyzeStepG, truncJson, summaryOf_arr_cons,
                    List.length_map]
        have hfun : (fun (st : List (String × String)) (kv : String × Json) =>
            analyzeStep fuel pre d m st (kv.1, truncJson (k2 + 1) kv.2)) =
            analyzeStep fuel pre d m :=
          funext fun st => funext fun kv => hstep st kv
        rw [hfun]

/-- C1: the mapping returned by `analyze_json_structure` is unchanged when
the document is truncated at the structural depth reachable within the
configured depth limit: the recursion never descends past the limit
(default `max_depth = 4`, i.e. depth 2·5 = 10 structural levels, since each
recursion step descends one level for a dict value and two levels for the
first element of an array), even for arbitrarily deeply nested input. -/
theorem analyze_depth_limited (obj : Json) (pre : String) (depth max_depth : Nat) :
    analyze_json_structure obj pre depth max_depth =
      analyze_json_structure (truncJson (2 * (max_depth + 1 - depth)) obj)
        pre depth max_depth :=
  analyzeFuel_trunc (max_depth + 1 - depth) (2 * (max_depth + 1 - depth)) obj pre
    depth max_depth (le_refl _)

/-- C10: a top-level non-dict document yields the empty mapping. -/
theorem analyze_non_dict_empty (v : Json) (pre : String) (depth max_depth : Nat)
    (h : isDict v = false) :
    analyze_json_structure v pre depth max_depth = [] := by
  unfold analyze_json_structure
  cases hf : max_depth + 1 - depth with
  | zero => rfl
  | succ fuel =>
    cases v with
    | obj kvs => simp [isDict] at h
    | null => by_cases hmd : max_depth < depth <;> simp [analyzeFuel, hmd]
    | bool b => by_cases hmd : max_depth < depth <;> simp [analyzeFuel, hmd]
    | num n => by_cases hmd : max_depth < depth <;> simp [analyzeFuel, hmd]
    | str s => by_cases hmd : max_depth < depth <;> simp [analyzeFuel, hmd]
    | arr l => by_cases hmd : max_depth < depth <;> simp [analyzeFuel, hmd]

/-- Witness for C10: a top-level array is not traversed at all, not even its
first element (a dict that would otherwise produce entries). -/
theorem analyze_non_dict_empty_witness :
    isDict (Json.arr [Json.obj [("k", Json.null)]]) = false ∧
      analyze_json_structure (Json.arr [Json.obj [("k", Json.null)]]) "" 0 4 = [] :=
  ⟨by decide, analyze_non_dict_empty (Json.arr [Json.obj [("k", Json.null)]]) "" 0 4
    (by decide)⟩

/-- Python list indexing `l[i]`, raising `IndexError` when out of range. -/
def pyListGet (l : List Json) (i : Nat) : Except String Json :=
  match l.get? i with
  | some x => Except.ok x
  | none => Except.error "IndexError: list index out of range"

/-- The loop body of `analyze_json_structure` with the fallible operation
`value[0]` modelled explicitly in the `Except` monad. -/
def analyzeStepGE
    (rec : Json → String → Nat → Nat → Except String (List (String × String)))
    (pre : String) (depth max_depth : Nat)
    (st : List (String × String)) (kv : String × Json) :
    Except String (List (String × String)) :=
  let path := joinPath pre kv.1
  match kv.2 with
  | Json.obj _ => do
    let r ← rec kv.2 path (depth + 1) max_depth
    Except.ok (updateEntries (insertEntry st path (summaryOf kv.2)) r)
  | Json.arr l =>
    if 0 < l.length then do
      let st1 := insertEntry st path (summaryOf kv.2)
      let e ← pyListGet l 0
      match e with
      | Json.obj _ => do
        let r ← rec e (path ++ "[0]") (depth + 1) max_depth
        Except.ok (updateEntries st1 r)
      | _ => Except.ok st1
    else Except.ok (insertEntry st path (summaryOf kv.2))
  | _ => Except.ok (insertEntry st path (summaryOf kv.2))

/-- Fuelled `analyze_json_structure` in the `Except` monad. -/
def analyzeFuelE : Nat → Json → String → Nat → Nat →
    Except String (List (String × String))
  | 0, _, _, _, _ => Except.ok []
  | fuel + 1, obj, pre, depth, max_depth =>
    if max_depth < depth then Except.ok []
    else
      match obj with
      | Json.obj kvs =>
        kvs.foldlM (analyzeStepGE (analyzeFuelE fuel) pre depth max_depth) []
      | _ => Except.ok []

/-- The function `analyze_json_structure` with every fallible Python operation modelled
as a possible exception. -/
def analyze_json_structureE (obj : Json) (pre : String) (depth max_depth : Nat) :
    Except String (List (String × String)) :=
  analyzeFuelE (max_depth + 1 - depth) obj pre depth max_depth

theorem analyzeFuelE_ok (fuel : Nat) :
    ∀ (obj : Json) (pre : String) (d m : Nat),
      analyzeFuelE fuel obj pre d m = Except.ok (analyzeFuel fuel obj pre d m) := by
  induction fuel with
  | zero => intros; rfl
  | succ fuel ih =>
    intro obj pre d m
    cases obj with
    | null => by_cases hmd : m < d <;> simp [analyzeFuelE, analyzeFuel, hmd]
    | bool b => by_cases hmd : m < d <;> simp [analyzeFuelE, analyzeFuel, hmd]
    | num n => by_cases hmd : m < d <;> simp [analyzeFuelE, analyzeFuel, hmd]
    | str s => by_cases hmd : m < d <;> simp [analyzeFuelE, analyzeFuel, hmd]
    | arr l => by_cases hmd : m < d <;> simp [analyzeFuelE, analyzeFuel, hmd]
    | obj kvs =>
      by_cases hmd : m < d
      · simp [analyzeFuelE, analyzeFuel, hmd]
      · simp only [analyzeFuelE, analyzeFuel, if_neg hmd]
        have hfold : ∀ (kvs2 : List (String × Json)) (st : List (String × String)),
            kvs2.foldlM (analyzeStepGE (analyzeFuelE fuel) pre d m) st =
              Except.ok (kvs2.foldl (analyzeStepG (analyzeFuel fuel) pre d m) st) := by
          intro kvs2
          induction kvs2 with
          | nil => intro st; rfl
          | cons hd tl ihl =>
            intro st
            have hstep : analyzeStepGE (analyzeFuelE fuel) pre d m st hd =
                Except.ok (analyzeStepG (analyzeFuel fuel) pre d m st hd) := by
              obtain ⟨key, value⟩ := hd
              cases value with
              | null => rfl
              | bool b => rfl
              | num n => rfl
              | str s => rfl
              | obj inner =>
                simp [analyzeStepGE, analyzeStepG, ih, Bind.bind, Except.bind]
              | arr l =>
                cases l with
                | nil => rfl
                | cons e rest =>
                  cases e <;>
                    simp [analyzeStepGE, analyzeStepG, ih, pyListGet, List.get?,
                      Bind.bind, Except.bind]
            simp only [List.foldlM, hstep, List.foldl]
            simp only [Bind.bind, Except.bind]
            exact ihl _
        exact hfold kvs []

/-- C2: `analyze_json_structure` never raises: for every document (nested
dicts, lists, scalars, null) the `Except`-monad model returns `ok` of the
pure result; its error branch (`value[0]` out of range) is unreachable. -/
theorem analyze_never_raises (obj : Json) (pre : String) (depth max_depth : Nat) :
    analyze_json_structureE obj pre depth max_depth =
      Except.ok (analyze_json_structure obj pre depth max_depth) :=
  analyzeFuelE_ok (max_depth + 1 - depth) obj pre depth max_depth

/-- The values the analyzer writes summaries for: `Visits obj pre d m q v`
holds when the traversal of `obj` (path prefix `pre`, recursion depth `d`,
depth limit `m`) writes a summary for the value `v` under the path string
`q`.  It mirrors the three ways `analyze_json_structure` reaches a value:
directly as a dict item, through recursion into a dict value, and through
recursion into the first element of an array when that element is a dict. -/
inductive Visits : Json → String → Nat → Nat → String → Json → Prop where
  | here {kvs : List (String × Json)} {pre : String} {d m : Nat}
      {k : String} {v : Json} (hd : d ≤ m) (hmem : (k, v) ∈ kvs) :
      Visits (Json.obj kvs) pre d m (joinPath pre k) v
  | intoObj {kvs : List (String × Json)} {inner : List (String × Json)}
      {pre : String} {d m : Nat} {k q : String} {v : Json} (hd : d ≤ m)
      (hmem : (k, Json.obj inner) ∈ kvs)
      (hrec : Visits (Json.obj inner) (joinPath pre k) (d + 1) m q v) :
      Visits (Json.obj kvs) pre d m q v
  | intoArr {kvs : List (String × Json)} {inner : List (String × Json)}
      {rest : List Json} {pre : String} {d m : Nat} {k q : String} {v : Json}
      (hd : d ≤ m) (hmem : (k, Json.arr (Json.obj inner :: rest)) ∈ kvs)
      (hrec : Visits (Json.obj inner) (joinPath pre k ++ "[0]") (d + 1) m q v) :
      Visits (Json.obj kvs) pre d m q v

theorem mem_insertEntry : ∀ (st : List (String × String)) (k v q s : String),
    (q, s) ∈ insertEntry st k v → (q, s) ∈ st ∨ (q = k ∧ s = v) := by
  intro st k v
  induction st with
  | nil =>
    intro q s h
    simp only [insertEntry, List.mem_singleton, Prod.mk.injEq] at h
    exact Or.inr h
  | cons hd tl ihl =>
    intro q s h
    obtain ⟨k', v'⟩ := hd
    simp only [insertEntry] at h
    by_cases he : k' = k
    · rw [if_pos he] at h
      rcases List.mem_cons.mp h with h1 | h1
      · rcases Prod.mk.injEq .. ▸ h1 with ⟨h2, h3⟩
        exact Or.inr ⟨h2.trans he, h3⟩
      · exact Or.inl (List.mem_cons_of_mem _ h1)
    · rw [if_neg he] at h
      rcases List.mem_cons.mp h with h1 | h1
      · exact Or.inl (h1 ▸ List.mem_cons_self _ _)
      · rcases ihl q s h1 with h2 | h2
        · exact Or.inl (List.mem_cons_of_mem _ h2)
        · exact Or.inr h2

theorem mem_updateEntries : ∀ (adds st : List (String × String)) (q s : String),
    (q, s) ∈ updateEntries st adds → (q, s) ∈ st ∨ (q, s) ∈ adds := by
  intro adds
  induction adds with
  | nil => intro st q s h; exact Or.inl h
  | cons hd tl ihl =>
    intro st q s h
    rcases ihl (insertEntry st hd.1 hd.2) q s h with h1 | h1
    · rcases mem_insertEntry st hd.1 hd.2 q s h1 with h2 | h2
      · exact Or.inl h2
      · rw [h2.1, h2.2]
        exact Or.inr (Prod.mk.eta ▸ List.mem_cons_self _ _)
    · exact Or.inr (List.mem_cons_of_mem _ h1)

theorem lookupEntry_mem : ∀ (st : List (String × String)) (q s : String),
    lookupEntry st q = some s → (q, s) ∈ st := by
  intro st
  induction st with
  | nil => intro q s h; simp [lookupEntry] at h
  | cons hd tl ihl =>
    intro q s h
    obtain ⟨k, v⟩ := hd
    simp only [lookupEntry] at h
    by_cases he : k = q
    · rw [if_pos he] at h
      cases h
      exact he ▸ List.mem_cons_self _ _
    · rw [if_neg he] at h
      exact List.mem_cons_of_mem _ (ihl q s h)

theorem lookupEntry_isSome_insert_self :
    ∀ (st : List (String × String)) (k v : String),
      (lookupEntry (insertEntry st k v) k).isSome := by
  intro st k v
  induction st with
  | nil => simp [insertEntry, lookupEntry]
  | cons hd tl ihl =>
    obtain ⟨k', v'⟩ := hd
    by_cases he : k' = k
    · simp [insertEntry, lookupEntry, he]
    · simpa [insertEntry, lookupEntry, he] using ihl

theorem lookupEntry_isSome_insert_mono :
    ∀ (st : List (String × String)) (k v q : String),
      (lookupEntry st q).isSome → (lookupEntry (insertEntry st k v) q).isSome := by
  intro st k v
  induction st with
  | nil => intro q h; simp [lookupEntry] at h
  | cons hd tl ihl =>
    intro q h
    obtain ⟨k', v'⟩ := hd
    by_cases he : k' = k
    · subst he
      simp only [insertEntry, if_pos rfl]
      by_cases hq : k' = q
      · simp [lookupEntry, hq]
      · simp only [lookupEntry, if_neg hq] at h ⊢
        exact h
    · simp only [insertEntry, if_neg he]
      by_cases hq : k' = q
      · simp [lookupEntry, hq]
      · simp only [lookupEntry, if_neg hq] at h ⊢
        exact ihl q h

theorem lookupEntry_isSome_update_mono :
    ∀ (adds st : List (String × String)) (q : String),
      (lookupEntry st q).isSome → (lookupEntry (updateEntries st adds) q).isSome := by
  intro adds
  induction adds with
  | nil => intro st q h; exact h
  | cons hd tl ihl =>
    intro st q h
    exact ihl (insertEntry st hd.1 hd.2) q
      (lookupEntry_isSome_insert_mono st hd.1 hd.2 q h)

theorem lookupEntry_isSome_update_adds :
    ∀ (adds st : List (String × String)) (q : String),
      (lookupEntry adds q).isSome → (lookupEntry (updateEntries st adds) q).isSome := by
  intro adds
  induction adds with
  | nil => intro st q h; simp [lookupEntry] at h
  | cons hd tl ihl =>
    intro st q h
    obtain ⟨k, v⟩ := hd
    by_cases he : k = q
    · subst he
      exact lookupEntry_isSome_update_mono tl (insertEntry st k v) k
        (lookupEntry_isSome_insert_self st k v)
    · simp only [lookupEntry, if_neg he] at h
      exact ihl (insertEntry st k v) q h

theorem analyzeStep_lookup_self (fuel : Nat) (pre : String) (d m : Nat)
    (st : List (String × String)) (k : String) (v : Json) :
    (lookupEntry (analyzeStep fuel pre d m st (k, v)) (joinPath pre k)).isSome := by
  cases v with
  | obj inner =>
    exact lookupEntry_isSome_update_mono _ _ _
      (lookupEntry_isSome_insert_self st _ _)
  | arr l =>
    cases l with
    | nil => exact lookupEntry_isSome_insert_self st _ _
    | cons e rest =>
      cases e with
      | obj inner =>
        exact lookupEntry_isSome_update_mono _ _ _
          (lookupEntry_isSome_insert_self st _ _)
      | null => exact lookupEntry_isSome_insert_self st _ _
      | bool b => exact lookupEntry_isSome_insert_self st _ _
      | num n => exact lookupEntry_isSome_insert_self st _ _
      | str s2 => exact lookupEntry_isSome_insert_self st _ _
      | arr l2 => exact lookupEntry_isSome_insert_self st _ _
  | null => exact lookupEntry_isSome_insert_self st _ _
  | bool b => exact lookupEntry_isSome_insert_self st _ _
  | num n => exact lookupEntry_isSome_insert_self st _ _
  | str s2 => exact lookupEntry_isSome_insert_self st _ _

theorem analyzeStep_lookup_mono (fuel : Nat) (pre : String) (d m : Nat)
    (st : List (String × String)) (kv : String × Json) (q : String)
    (h : (lookupEntry st q).isSome) :
    (lookupEntry (analyzeStep fuel pre d m st kv) q).isSome := by
  obtain ⟨k, v⟩ := kv
  cases v with
  | obj inner =>
    exact lookupEntry_isSome_update_mono _ _ _
      (lookupEntry_isSome_insert_mono st _ _ q h)
  | arr l =>
    cases l with
    | nil => exact lookupEntry_isSome_insert_mono st _ _ q h
    | cons e rest =>
      cases e with
      | obj inner =>
        exact lookupEntry_isSome_update_mono _ _ _
          (lookupEntry_isSome_insert_mono st _ _ q h)
      | null => exact lookupEntry_isSome_insert_mono st _ _ q h
      | bool b => exact lookupEntry_isSome_insert_mono st _ _ q h
      | num n => exact lookupEntry_isSome_insert_mono st _ _ q h
      | str s2 => exact lookupEntry_isSome_insert_mono st _ _ q h
      | arr l2 => exact lookupEntry_isSome_insert_mono st _ _ q h
  | null => exact lookupEntry_isSome_insert_mono st _ _ q h
  | bool b => exact lookupEntry_isSome_insert_mono st _ _ q h
  | num n => exact lookupEntry_isSome_insert_mono st _ _ q h
  | str s2 => exact lookupEntry_isSome_insert_mono st _ _ q h

theorem foldl_lookup_mono (fuel : Nat) (pre : String) (d m : Nat) :
    ∀ (kvs : List (String × Json)) (st : List (String × String)) (q : String),
      (lookupEntry st q).isSome →
      (lookupEntry (kvs.foldl (analyzeStep fuel pre d m) st) q).isSome := by
  intro kvs
  induction kvs with
  | nil => intro st q h; exact h
  | cons hd tl ihl =>
    intro st q h
    exact ihl (analyzeStep fuel pre d m st hd) q
      (analyzeStep_lookup_mono fuel pre d m st hd q h)

theorem analyzeFuel_sound (fuel : Nat) :
    ∀ (obj : Json) (pre : String) (d m : Nat) (q s : String),
      d + fuel = m + 1 → (q, s) ∈ analyzeFuel fuel obj pre d m →
      ∃ v, Visits obj pre d m q v ∧ s = summaryOf v := by
  induction fuel with
  | zero => intro obj pre d m q s hdm h; simp [analyzeFuel] at h
  | succ fuel ih =>
    intro obj pre d m q s hdm h
    have hdle : d ≤ m := by omega
    cases obj with
    | null => simp [analyzeFuel, show ¬ m < d by omega] at h
    | bool b => simp [analyzeFuel, show ¬ m < d by omega] at h
    | num n => simp [analyzeFuel, show ¬ m < d by omega] at h
    | str s2 => simp [analyzeFuel, show ¬ m < d by omega] at h
    | arr l => simp [analyzeFuel, show ¬ m < d by omega] at h
    | obj kvs =>
      rw [analyzeFuel_succ_obj, if_neg (by omega)] at h
      have hfold : ∀ (kvs2 : List (String × Json)) (st : List (String × String)),
          (q, s) ∈ kvs2.foldl (analyzeStep fuel pre d m) st →
          (q, s) ∈ st ∨ ∃ k v, (k, v) ∈ kvs2 ∧
            ((q = joinPath pre k ∧ s = summaryOf v) ∨
             (∃ inner, v = Json.obj inner ∧
               ∃ w, Visits (Json.obj inner) (joinPath pre k) (d + 1) m q w ∧
                 s = summaryOf w) ∨
             (∃ inner rest2, v = Json.arr (Json.obj inner :: rest2) ∧
               ∃ w, Visits (Json.obj inner) (joinPath pre k ++ "[0]") (d + 1) m q w ∧
                 s = summaryOf w)) := by
        intro kvs2
        induction kvs2 with
        | nil => intro st h2; exact Or.inl h2
        | cons hd tl ihl =>
          intro st h2
          rcases ihl (analyzeStep fuel pre d m st hd) h2 with h3 | h3
          · obtain ⟨key, value⟩ := hd
            have hrec : ∀ (val : Json) (pr : String),
                (q, s) ∈ analyzeFuel fuel val pr (d + 1) m →
                ∃ w, Visits val pr (d + 1) m q w ∧ s = summaryOf w := by
              intro val pr hm
              exact ih val pr (d + 1) m q s (by omega) hm
            cases value with
            | obj inner =>
              rcases mem_updateEntries _ _ q s h3 with h4 | h4
              · rcases mem_insertEntry st _ _ q s h4 with h5 | h5
                · exact Or.inl h5
                · exact Or.inr ⟨key, Json.obj inner, List.mem_cons_self _ _,
                    Or.inl h5⟩
              · obtain ⟨w, hw, hs⟩ := hrec (Json.obj inner) (joinPath pre key) h4
                exact Or.inr ⟨key, Json.obj inner, List.mem_cons_self _ _,
                  Or.inr (Or.inl ⟨inner, rfl, w, hw, hs⟩)⟩
            | arr l =>
              cases l with
              | nil =>
                rcases mem_insertEntry st _ _ q s h3 with h5 | h5
                · exact Or.inl h5
                · exact Or.inr ⟨key, Json.arr [], List.mem_cons_self _ _,
                    Or.inl h5⟩
              | cons e rest =>
                cases e with
                | obj inner =>
                  rcases mem_updateEntries _ _ q s h3 with h4 | h4
                  · rcases mem_insertEntry st _ _ q s h4 with h5 | h5
                    · exact Or.inl h5
                    · exact Or.inr ⟨key, Json.arr (Json.obj inner :: rest),
                        List.mem_cons_self _ _, Or.inl h5⟩
                  · obtain ⟨w, hw, hs⟩ := hrec (Json.obj inner)
                      (joinPath pre key ++ "[0]") h4
                    exact Or.inr ⟨key, Json.arr (Json.obj inner :: rest),
                      List.mem_cons_self _ _,
                      Or.inr (Or.inr ⟨inner, rest, rfl, w, hw, hs⟩)⟩
                | null =>
                  rcases mem_insertEntry st _ _ q s h3 with h5 | h5
                  · exact Or.inl h5
                  · exact Or.inr ⟨key, Json.arr (Json.null :: rest),
                      List.mem_cons_self _ _, Or.inl h5⟩
                | bool b =>
                  rcases mem_insertEntry st _ _ q s h3 with h5 | h5
                  · exact Or.inl h5
                  · exact Or.inr ⟨key, Json.arr (Json.bool b :: rest),
                      List.mem_cons_self _ _, Or.inl h5⟩
                | num n =>
                  rcases mem_insertEntry st _ _ q s h3 with h5 | h5
                  · exact Or.inl h5
                  · exact Or.inr ⟨key, Json.arr (Json.num n :: rest),
                      List.mem_cons_self _ _, Or.inl h5⟩
                | str s3 =>
                  rcases mem_insertEntry st _ _ q s h3 with h5 | h5
                  · exact Or.inl h5
                  · exact Or.inr ⟨key, Json.arr (Json.str s3 :: rest),
                      List.mem_cons_self _ _, Or.inl h5⟩
                | arr l2 =>
                  rcases mem_insertEntry st _ _ q s h3 with h5 | h5
                  · exact Or.inl h5
                  · exact Or.inr ⟨key, Json.arr (Json.arr l2 :: rest),
                      List.mem_cons_self _ _, Or.inl h5⟩
            | null =>
              rcases mem_insertEntry st _ _ q s h3 with h5 | h5
              · exact Or.inl h5
              · exact Or.inr ⟨key, Json.null, List.mem_cons_self _ _, Or.inl h5⟩
            | bool b =>
              rcases mem_insertEntry st _ _ q s h3 with h5 | h5
              · exact Or.inl h5
              · exact Or.inr ⟨key, Json.bool b, List.mem_cons_self _ _, Or.inl h5⟩
            | num n =>
              rcases mem_insertEntry st _ _ q s h3 with h5 | h5
              · exact Or.inl h5
              · exact Or.inr ⟨key, Json.num n, List.mem_cons_self _ _, Or.inl h5⟩
            | str s3 =>
              rcases mem_insertEntry st _ _ q s h3 with h5 | h5
              · exact Or.inl h5
              · exact Or.inr ⟨key, Json.str s3, List.mem_cons_self _ _, Or.inl h5⟩
          · obtain ⟨k, v, hkv, hc⟩ := h3
            exact Or.inr ⟨k, v, List.mem_cons_of_mem _ hkv, hc⟩
      rcases hfold kvs [] h with h1 | h1
      · simp at h1
      · obtain ⟨k, v, hkv, hc⟩ := h1
        rcases hc with ⟨hq, hs⟩ | ⟨inner, rfl, w, hw, hs⟩ | ⟨inner, rest2, rfl, w, hw, hs⟩
        · exact ⟨v, hq ▸ Visits.here hdle hkv, hs⟩
        · exact ⟨w, Visits.intoObj hdle hkv hw, hs⟩
        · exact ⟨w, Visits.intoArr hdle hkv hw, hs⟩

/-- Every entry of the returned mapping is the summary of a visited value. -/
theorem analyze_sound (obj : Json) (pre : String) (d m : Nat) (q s : String)
    (h : (q, s) ∈ analyze_json_structure obj pre d m) :
    ∃ v, Visits obj pre d m q v ∧ s = summaryOf v := by
  unfold analyze_json_structure at h
  by_cases hdm : d ≤ m
  · exact analyzeFuel_sound (m + 1 - d) obj pre d m q s (by omega) h
  · rw [show m + 1 - d = 0 from by omega] at h
    simp [analyzeFuel] at h

theorem foldl_lookup_of_mem (fuel : Nat) (pre : String) (d m : Nat) :
    ∀ (kvs : List (String × Json)) (st : List (String × String)) (k : String)
      (v : Json), (k, v) ∈ kvs →
      (lookupEntry (kvs.foldl (analyzeStep fuel pre d m) st) (joinPath pre k)).isSome := by
  intro kvs
  induction kvs with
  | nil => intro st k v h; simp at h
  | cons hd tl ihl =>
    intro st k v h
    rcases List.mem_cons.mp h with h1 | h1
    · have hself : (lookupEntry (analyzeStep fuel pre d m st hd) (joinPath pre k)).isSome := by
        rw [← h1]
        exact analyzeStep_lookup_self fuel pre d m st k v
      exact foldl_lookup_mono fuel pre d m tl _ _ hself
    · exact ihl (analyzeStep fuel pre d m st hd) k v h1

theorem foldl_lookup_of_rec_obj (fuel : Nat) (pre : String) (d m : Nat) :
    ∀ (kvs : List (String × Json)) (st : List (String × String)) (k q : String)
      (inner : List (String × Json)), (k, Json.obj inner) ∈ kvs →
      (lookupEntry (analyzeFuel fuel (Json.obj inner) (joinPath pre k) (d + 1) m) q).isSome →
      (lookupEntry (kvs.foldl (analyzeStep fuel pre d m) st) q).isSome := by
  intro kvs
  induction kvs with
  | nil => intro st k q inner h _; simp at h
  | cons hd tl ihl =>
    intro st k q inner h hr
    rcases List.mem_cons.mp h with h1 | h1
    · have hstep : (lookupEntry (analyzeStep fuel pre d m st hd) q).isSome := by
        rw [← h1]
        exact lookupEntry_isSome_update_adds _ _ q hr
      exact foldl_lookup_mono fuel pre d m tl _ _ hstep
    · exact ihl (analyzeStep fuel pre d m st hd) k q inner h1 hr

theorem foldl_lookup_of_rec_arr (fuel : Nat) (pre : String) (d m : Nat) :
    ∀ (kvs : List (String × Json)) (st : List (String × String)) (k q : String)
      (inner : List (String × Json)) (rest : List Json),
      (k, Json.arr (Json.obj inner :: rest)) ∈ kvs →
      (lookupEntry (analyzeFuel fuel (Json.obj inner) (joinPath pre k ++ "[0]") (d + 1) m) q).isSome →
      (lookupEntry (kvs.foldl (analyzeStep fuel pre d m) st) q).isSome := by
  intro kvs
  induction kvs with
  | nil => intro st k q inner rest h _; simp at h
  | cons hd tl ihl =>
    intro st k q inner rest h hr
    rcases List.mem_cons.mp h with h1 | h1
    · have hstep : (lookupEntry (analyzeStep fuel pre d m st hd) q).isSome := by
        rw [← h1]
        exact lookupEntry_isSome_update_adds _ _ q hr
      exact foldl_lookup_mono fuel pre d m tl _ _ hstep
    · exact ihl (analyzeStep fuel pre d m st hd) k q inner rest h1 hr

/-- Every visited path has an entry in the returned mapping. -/
theorem analyze_complete (obj : Json) (pre : String) (d m : Nat) (q : String)
    (v : Json) (h : Visits obj pre d m q v) :
    (lookupEntry (analyze_json_structure obj pre d m) q).isSome := by
  induction h with
  | @here kvs pre2 d2 m2 k v2 hd hmem =>
    rw [show analyze_json_structure (Json.obj kvs) pre2 d2 m2 =
      analyzeFuel ((m2 - d2) + 1) (Json.obj kvs) pre2 d2 m2 from by
        unfold analyze_json_structure
        rw [show m2 + 1 - d2 = (m2 - d2) + 1 from by omega]]
    rw [analyzeFuel_succ_obj, if_neg (by omega)]
    exact foldl_lookup_of_mem (m2 - d2) pre2 d2 m2 kvs [] k v2 hmem
  | @intoObj kvs inner pre2 d2 m2 k q2 v2 hd hmem hrec ihr =>
    rw [show analyze_json_structure (Json.obj kvs) pre2 d2 m2 =
      analyzeFuel ((m2 - d2) + 1) (Json.obj kvs) pre2 d2 m2 from by
        unfold analyze_json_structure
        rw [show m2 + 1 - d2 = (m2 - d2) + 1 from by omega]]
    rw [analyzeFuel_succ_obj, if_neg (by omega)]
    refine foldl_lookup_of_rec_obj (m2 - d2) pre2 d2 m2 kvs [] k q2 inner hmem ?_
    have heq : analyze_json_structure (Json.obj inner) (joinPath pre2 k) (d2 + 1) m2 =
        analyzeFuel (m2 - d2) (Json.obj inner) (joinPath pre2 k) (d2 + 1) m2 := by
      unfold analyze_json_structure
      rw [show m2 + 1 - (d2 + 1) = m2 - d2 from by omega]
    exact heq ▸ ihr
  | @intoArr kvs inner rest pre2 d2 m2 k q2 v2 hd hmem hrec ihr =>
    rw [show analyze_json_structure (Json.obj kvs) pre2 d2 m2 =
      analyzeFuel ((m2 - d2) + 1) (Json.obj kvs) pre2 d2 m2 from by
        unfold analyze_json_structure
        rw [show m2 + 1 - d2 = (m2 - d2) + 1 from by omega]]
    rw [analyzeFuel_succ_obj, if_neg (by omega)]
    refine foldl_lookup_of_rec_arr (m2 - d2) pre2 d2 m2 kvs [] k q2 inner rest hmem ?_
    have heq : analyze_json_structure (Json.obj inner) (joinPath pre2 k ++ "[0]") (d2 + 1) m2 =
        analyzeFuel (m2 - d2) (Json.obj inner) (joinPath pre2 k ++ "[0]") (d2 + 1) m2 := by
      unfold analyze_json_structure
      rw [show m2 + 1 - (d2 + 1) = m2 - d2 from by omega]
    exact heq ▸ ihr

/-- C3 counterexample: the claim fails as stated.  The document
`{"a.b": {"x": null, "y": null}, "a": {"b": 1}}` contains (within the depth
limit, at depth 0) a dictionary value with 2 keys at path `"a.b"`, yet the
returned mapping does not record `"object (2 keys)"` for that path: the
recursion into `"a"` later writes path string `"a.b"` for the scalar `1`,
overwriting the entry (Python dict assignment). -/
theorem analyze_object_summary_cex :
    Visits (Json.obj [("a.b", Json.obj [("x", Json.null), ("y", Json.null)]),
        ("a", Json.obj [("b", Json.num 1)])]) "" 0 4 "a.b"
      (Json.obj [("x", Json.null), ("y", Json.null)]) ∧
    lookupEntry (analyze_json_structure
        (Json.obj [("a.b", Json.obj [("x", Json.null), ("y", Json.null)]),
          ("a", Json.obj [("b", Json.num 1)])]) "" 0 4) "a.b" ≠
      some "object (2 keys)" := by
  constructor
  · have h : Visits (Json.obj [("a.b", Json.obj [("x", Json.null), ("y", Json.null)]),
        ("a", Json.obj [("b", Json.num 1)])]) "" 0 4 (joinPath "" "a.b")
        (Json.obj [("x", Json.null), ("y", Json.null)]) :=
      Visits.here (by decide) (List.mem_cons_self _ _)
    simpa [joinPath] using h
  · decide

/-- C3 (amended): for every document containing, within the depth limit, a
dictionary value with `n` keys at some path, the returned mapping records
`"object (n keys)"` for that path — provided no other visited value
produces the same path string (path strings are not injective, and a later
write to the same path overwrites the entry; see the counterexample). -/
theorem analyze_records_object_summary (obj : Json) (path : String)
    (inner : List (String × Json))
    (hv : Visits obj "" 0 4 path (Json.obj inner))
    (hu : ∀ w, Visits obj "" 0 4 path w → summaryOf w = summaryOf (Json.obj inner)) :
    lookupEntry (analyze_json_structure obj "" 0 4) path =
      some ("object (" ++ toString inner.length ++ " keys)") := by
  have h1 := analyze_complete obj "" 0 4 path (Json.obj inner) hv
  obtain ⟨s, hs⟩ := Option.isSome_iff_exists.mp h1
  obtain ⟨w, hw, hsw⟩ := analyze_sound obj "" 0 4 path s (lookupEntry_mem _ _ _ hs)
  rw [hs, hsw, hu w hw]
  rfl

/-- Inversion for visits into an object none of whose values is a dict or
an array headed by a dict: the only visits are the direct ones. -/
theorem visits_flat_inv (kvs : List (String × Json)) (pre : String) (d m : Nat)
    (q : String) (w : Json)
    (hflat : ∀ kv ∈ kvs, (∀ inner, kv.2 ≠ Json.obj inner) ∧
      (∀ inner rest, kv.2 ≠ Json.arr (Json.obj inner :: rest)))
    (h : Visits (Json.obj kvs) pre d m q w) :
    ∃ k, (k, w) ∈ kvs ∧ q = joinPath pre k := by
  cases h with
  | here hd hmem => exact ⟨_, hmem, rfl⟩
  | intoObj hd hmem hrec => exact absurd rfl ((hflat _ hmem).1 _)
  | intoArr hd hmem hrec => exact absurd rfl ((hflat _ hmem).2 _ _)

/-- Witness for C3 (amended), at the document `{"a": {"x": null}}`. -/
theorem analyze_records_object_summary_witness :
    lookupEntry (analyze_json_structure (Json.obj [("a", Json.obj [("x", Json.null)])])
      "" 0 4) "a" = some "object (1 keys)" := by
  have hv : Visits (Json.obj [("a", Json.obj [("x", Json.null)])]) "" 0 4
      (joinPath "" "a") (Json.obj [("x", Json.null)]) :=
    Visits.here (by decide) (List.mem_cons_self _ _)
  have hu : ∀ w, Visits (Json.obj [("a", Json.obj [("x", Json.null)])]) "" 0 4 "a" w →
      summaryOf w = summaryOf (Json.obj [("x", Json.null)]) := by
    intro w hw
    cases hw with
    | here hd hmem => simp_all [joinPath]
    | intoObj hd hmem hrec =>
      simp only [List.mem_singleton, Prod.mk.injEq, Json.obj.injEq] at hmem
      obtain ⟨rfl, rfl⟩ := hmem
      have hflat : ∀ kv ∈ [("x", Json.null)],
          (∀ inner, (kv : String × Json).2 ≠ Json.obj inner) ∧
          (∀ inner rest, kv.2 ≠ Json.arr (Json.obj inner :: rest)) := by
        intro kv hkv
        simp only [List.mem_singleton] at hkv
        rw [hkv]
        exact ⟨fun inner h2 => Json.noConfusion h2,
          fun inner rest h2 => Json.noConfusion h2⟩
      obtain ⟨k2, hmem2, hq⟩ := visits_flat_inv _ _ _ _ _ _ hflat hrec
      simp only [List.mem_singleton, Prod.mk.injEq] at hmem2
      rw [hmem2.1] at hq
      exact absurd hq (by decide)
    | intoArr hd hmem hrec => simp at hmem
  exact analyze_records_object_summary (Json.obj [("a", Json.obj [("x", Json.null)])])
    "a" [("x", Json.null)] (by simpa [joinPath] using hv) hu

/-- C4 counterexample: the claim fails as stated.  The document
`{"a.b": [], "a": {"b": 2}}` contains (within the depth limit) an empty
array at path `"a.b"`, yet the returned mapping does not record
`"array (empty)"` for that path: the recursion into `"a"` later writes the
same path string for the scalar `2`, overwriting the entry. -/
theorem analyze_array_entries_cex :
    Visits (Json.obj [("a.b", Json.arr []), ("a", Json.obj [("b", Json.num 2)])])
      "" 0 4 "a.b" (Json.arr []) ∧
    lookupEntry (analyze_json_structure
        (Json.obj [("a.b", Json.arr []), ("a", Json.obj [("b", Json.num 2)])])
        "" 0 4) "a.b" ≠ some "array (empty)" := by
  constructor
  · have h : Visits (Json.obj [("a.b", Json.arr []),
        ("a", Json.obj [("b", Json.num 2)])]) "" 0 4 (joinPath "" "a.b")
        (Json.arr []) :=
      Visits.here (by decide) (List.mem_cons_self _ _)
    simpa [joinPath] using h
  · decide

theorem analyze_singleton (k : String) (v : Json) (pre : String) (d m : Nat)
    (hd : d ≤ m) :
    analyze_json_structure (Json.obj [(k, v)]) pre d m =
      analyzeStep (m - d) pre d m [] (k, v) := by
  unfold analyze_json_structure
  rw [show m + 1 - d = (m - d) + 1 from by omega, analyzeFuel_succ_obj,
    if_neg (by omega)]
  rfl

/-- C4 (amended): for every document containing, within the depth limit, an
array at some path: if the array is empty, the returned mapping records
`"array (empty)"` for that path, and if it has `k > 0` items it records
`"array (k items)"` — in both cases provided no other visited value
produces the same path string (a later write to a colliding path string
overwrites the entry; see the counterexample).  Moreover the analyzer
recurses into element 0 if and only if that element is itself a mapping:
on a document with a non-empty array value, the result consists of the
array entry alone when element 0 is not a dict, and of the array entry
updated with the recursive analysis of element 0 when it is a dict. -/
theorem analyze_array_entries :
    (∀ (obj : Json) (path : String),
      Visits obj "" 0 4 path (Json.arr []) →
      (∀ w, Visits obj "" 0 4 path w → summaryOf w = summaryOf (Json.arr [])) →
      lookupEntry (analyze_json_structure obj "" 0 4) path = some "array (empty)") ∧
    (∀ (obj : Json) (path : String) (a : Json) (l : List Json),
      Visits obj "" 0 4 path (Json.arr (a :: l)) →
      (∀ w, Visits obj "" 0 4 path w → summaryOf w = summaryOf (Json.arr (a :: l))) →
      lookupEntry (analyze_json_structure obj "" 0 4) path =
        some ("array (" ++ toString (l.length + 1) ++ " items)")) ∧
    (∀ (k : String) (e : Json) (rest : List Json) (pre : String) (d m : Nat),
      d ≤ m → isDict e = false →
      analyze_json_structure (Json.obj [(k, Json.arr (e :: rest))]) pre d m =
        [(joinPath pre k, "array (" ++ toString (rest.length + 1) ++ " items)")]) ∧
    (∀ (k : String) (inner : List (String × Json)) (rest : List Json)
      (pre : String) (d m : Nat), d ≤ m →
      analyze_json_structure (Json.obj [(k, Json.arr (Json.obj inner :: rest))]) pre d m =
        updateEntries
          [(joinPath pre k, "array (" ++ toString (rest.length + 1) ++ " items)")]
          (analyze_json_structure (Json.obj inner) (joinPath pre k ++ "[0]")
            (d + 1) m)) := by
  refine ⟨?_, ?_, ?_, ?_⟩
  · intro obj path hv hu
    have h1 := analyze_complete obj "" 0 4 path (Json.arr []) hv
    obtain ⟨s, hs⟩ := Option.isSome_iff_exists.mp h1
    obtain ⟨w, hw, hsw⟩ := analyze_sound obj "" 0 4 path s (lookupEntry_mem _ _ _ hs)
    rw [hs, hsw, hu w hw]
    rfl
  · intro obj path a l hv hu
    have h1 := analyze_complete obj "" 0 4 path (Json.arr (a :: l)) hv
    obtain ⟨s, hs⟩ := Option.isSome_iff_exists.mp h1
    obtain ⟨w, hw, hsw⟩ := analyze_sound obj "" 0 4 path s (lookupEntry_mem _ _ _ hs)
    rw [hs, hsw, hu w hw, summaryOf_arr_cons]
  · intro k e rest pre d m hdm he
    rw [analyze_singleton k (Json.arr (e :: rest)) pre d m hdm]
    cases e with
    | obj inner => simp [isDict] at he
    | null => simp [analyzeStep, analyzeStepG, insertEntry, summaryOf_arr_cons]
    | bool b => simp [analyzeStep, analyzeStepG, insertEntry, summaryOf_arr_cons]
    | num n => simp [analyzeStep, analyzeStepG, insertEntry, summaryOf_arr_cons]
    | str s2 => simp [analyzeStep, analyzeStepG, insertEntry, summaryOf_arr_cons]
    | arr l2 => simp [analyzeStep, analyzeStepG, insertEntry, summaryOf_arr_cons]
  · intro k inner rest pre d m hdm
    rw [analyze_singleton k (Json.arr (Json.obj inner :: rest)) pre d m hdm]
    simp only [analyzeStep, analyzeStepG, summaryOf_arr_cons, insertEntry]
    unfold analyze_json_structure
    rw [show m + 1 - (d + 1) = m - d from by omega]

/-- Witness for C4 (amended): the empty-array entry at `{"a": []}` and the
no-recursion result for `{"b": [7]}` (element 0 not a mapping). -/
theorem analyze_array_entries_witness :
    lookupEntry (analyze_json_structure (Json.obj [("a", Json.arr [])]) "" 0 4) "a" =
      some "array (empty)" ∧
    analyze_json_structure (Json.obj [("b", Json.arr [Json.num 7])]) "" 0 4 =
      [("b", "array (1 items)")] := by
  constructor
  · have hv : Visits (Json.obj [("a", Json.arr [])]) "" 0 4 (joinPath "" "a")
        (Json.arr []) :=
      Visits.here (by decide) (List.mem_cons_self _ _)
    have hflat : ∀ kv ∈ [("a", Json.arr ([] : List Json))],
        (∀ inner, (kv : String × Json).2 ≠ Json.obj inner) ∧
        (∀ inner rest, kv.2 ≠ Json.arr (Json.obj inner :: rest)) := by
      intro kv hkv
      simp only [List.mem_singleton] at hkv
      rw [hkv]
      refine ⟨fun inner h2 => Json.noConfusion h2, fun inner rest h2 => ?_⟩
      rw [Json.arr.injEq] at h2
      exact List.noConfusion h2
    have hu : ∀ w, Visits (Json.obj [("a", Json.arr [])]) "" 0 4 "a" w →
        summaryOf w = summaryOf (Json.arr []) := by
      intro w hw
      obtain ⟨k2, hmem2, hq⟩ := visits_flat_inv _ _ _ _ _ _ hflat hw
      simp only [List.mem_singleton, Prod.mk.injEq] at hmem2
      rw [hmem2.2]
    exact analyze_array_entries.1 (Json.obj [("a", Json.arr [])]) "a"
      (by simpa [joinPath] using hv) hu
  · have h := analyze_array_entries.2.2.1 "b" (Json.num 7) [] "" 0 4
      (by decide) (by decide)
    simpa [joinPath] using h

/-- C5: every entry the analyzer records is the summary of a value visited
within the depth limit, and when that value is a scalar the recorded
summary is `type(v).__name__ ++ ": " ++ repr(v)[:50]`, whose representation
part is truncated to at most 50 characters. -/
theorem analyze_scalar_truncated (obj : Json) (pre : String) (d m : Nat)
    (q s : String) (h : (q, s) ∈ analyze_json_structure obj pre d m) :
    ∃ v, Visits obj pre d m q v ∧ s = summaryOf v ∧
      (isScalar v = true →
        s = pyTypeName v ++ ": " ++ strTake (pyAtomRepr v) 50 ∧
          (strTake (pyAtomRepr v) 50).length ≤ 50) := by
  obtain ⟨v, hv, hs⟩ := analyze_sound obj pre d m q s h
  refine ⟨v, hv, hs, fun hsc => ⟨?_, ?_⟩⟩
  · rw [hs]
    cases v with
    | obj kvs => simp [isScalar, isDict] at hsc
    | arr l => simp [isScalar, isList] at hsc
    | null => rfl
    | bool b => rfl
    | num n => rfl
    | str s2 => rfl
  · show (String.mk ((pyAtomRepr v).data.take 50)).length ≤ 50
    rw [show (String.mk ((pyAtomRepr v).data.take 50)).length =
      ((pyAtomRepr v).data.take 50).length from rfl]
    apply List.length_take_le

/-- Witness for C5: a 60-character string scalar, whose recorded repr is cut
to 50 characters (quote plus 49 characters of content). -/
theorem analyze_scalar_truncated_witness :
    ∃ v, Visits (Json.obj [("k",
        Json.str "abcdefghijklmnopqrstuvwxyzabcdefghijklmnopqrstuvwxyzabcdefgh")])
        "" 0 4 "k" v ∧
      "str: \x27abcdefghijklmnopqrstuvwxyzabcdefghijklmnopqrstuvw" = summaryOf v ∧
      (isScalar v = true →
        "str: \x27abcdefghijklmnopqrstuvwxyzabcdefghijklmnopqrstuvw" =
            pyTypeName v ++ ": " ++ strTake (pyAtomRepr v) 50 ∧
          (strTake (pyAtomRepr v) 50).length ≤ 50) :=
  analyze_scalar_truncated
    (Json.obj [("k",
      Json.str "abcdefghijklmnopqrstuvwxyzabcdefghijklmnopqrstuvwxyzabcdefgh")])
    "" 0 4 "k" "str: \x27abcdefghijklmnopqrstuvwxyzabcdefghijklmnopqrstuvw"
    (by decide)

/-- Python `repr` of a JSON value (string escaping inside quotes is not
modelled; no analysed property depends on the rendered text). -/
def pyRepr : Json → String
  | Json.null => "None"
  | Json.bool true => "True"
  | Json.bool false => "False"
  | Json.num n => toString n
  | Json.str s => "\x27" ++ s ++ "\x27"
  | Json.arr l =>
    "[" ++ String.intercalate ", " (l.attach.map (fun x => pyRepr x.1)) ++ "]"
  | Json.obj kvs =>
    "\x7b" ++ String.intercalate ", "
      (kvs.attach.map (fun x => "\x27" ++ x.1.1 ++ "\x27: " ++ pyRepr x.1.2)) ++ "\x7d"
termination_by j => sizeOf j
decreasing_by
  · have h1 := List.sizeOf_lt_of_mem x.2
    simp only [Json.arr.sizeOf_spec]
    omega
  · have h1 := List.sizeOf_lt_of_mem x.2
    have h2 : sizeOf x.1.2 < sizeOf x.1 := by
      obtain ⟨a, b⟩ := x.1
      simp only [Prod.mk.sizeOf_spec]
      omega
    simp only [Json.obj.sizeOf_spec]
    omega

/-- Python `str` of a JSON value, as rendered inside an f-string. -/
def pyStr : Json → String
  | Json.str s => s
  | v => pyRepr v

/-- Python `str` of a list of strings, quoting each element. -/
def renderStrList (l : List String) : String :=
  "[" ++ String.intercalate ", " (l.map (fun s => "\x27" ++ s ++ "\x27")) ++ "]"

def jsonLookup : List (String × Json) → String → Option Json
  | [], _ => none
  | (k, v) :: rest, q => if k = q then some v else jsonLookup rest q

/-- Python `d.get(k)`: `None` when absent; raises `AttributeError` when `d` is not
a dict. -/
def pyGet (d : Json) (k : String) : Except String Json :=
  match d with
  | Json.obj kvs => Except.ok ((jsonLookup kvs k).getD Json.null)
  | _ => Except.error "AttributeError: get"

/-- Python `d.get(k, dflt)`. -/
def pyGetD (d : Json) (k : String) (dflt : Json) : Except String Json :=
  match d with
  | Json.obj kvs => Except.ok ((jsonLookup kvs k).getD dflt)
  | _ => Except.error "AttributeError: get"

/-- The pure value of `d.get(k, dflt)` on a dict. -/
def jsGetD (d : Json) (k : String) (dflt : Json) : Json :=
  match d with
  | Json.obj kvs => (jsonLookup kvs k).getD dflt
  | _ => dflt

/-- Python `len(v)`: defined on lists, dicts and strings. -/
def pyLen : Json → Except String Nat
  | Json.arr l => Except.ok l.length
  | Json.obj kvs => Except.ok kvs.length
  | Json.str s => Except.ok s.length
  | _ => Except.error "TypeError: len"

/-- Python `list(v.keys())`. -/
def pyKeys : Json → Except String (List String)
  | Json.obj kvs => Except.ok (kvs.map (fun kv => kv.1))
  | _ => Except.error "AttributeError: keys"

/-- Python `v[0]`: defined on non-empty lists and strings. -/
def pySub0 : Json → Except String Json
  | Json.arr (x :: _) => Except.ok x
  | Json.arr [] => Except.error "IndexError"
  | Json.str s =>
    match s.data with
    | [] => Except.error "IndexError"
    | c :: _ => Except.ok (Json.str (String.mk [c]))
  | _ => Except.error "TypeError: indexing"

/-- Python `v[:n]`: defined on strings and lists. -/
def pySlice (v : Json) (n : Nat) : Except String Json :=
  match v with
  | Json.str s => Except.ok (Json.str (strTake s n))
  | Json.arr l => Except.ok (Json.arr (l.take n))
  | _ => Except.error "TypeError: slice"

def isStr : Json → Bool
  | Json.str _ => true
  | _ => false

/-- Holds when `len(v)` succeeds. -/
def wfLen (v : Json) : Bool := isList v || isDict v || isStr v

/-- Holds when `v[:n]` succeeds. -/
def isSliceable (v : Json) : Bool := isStr v || isList v

@[simp] theorem ok_bind {α β : Type} (a : α) (f : α → Except String β) :
    (Except.ok a >>= f) = f a := rfl

@[simp] theorem ex_pure_bind {α β : Type} (a : α) (f : α → Except String β) :
    ((pure a : Except String α) >>= f) = f a := rfl

theorem pyLen_ok (v : Json) (h : wfLen v = true) : ∃ n, pyLen v = Except.ok n := by
  cases v <;> simp [wfLen, isList, isDict, isStr] at h <;> exact ⟨_, rfl⟩

theorem pyKeys_ok (v : Json) (h : isDict v = true) :
    ∃ ks, pyKeys v = Except.ok ks := by
  cases v <;> simp [isDict] at h
  exact ⟨_, rfl⟩

theorem pySlice_ok (v : Json) (n : Nat) (h : isSliceable v = true) :
    ∃ w, pySlice v n = Except.ok w := by
  cases v <;> simp [isSliceable, isStr, isList] at h <;> exact ⟨_, rfl⟩

theorem pyGet_ok (d : Json) (k : String) (h : isDict d = true) :
    pyGet d k = Except.ok (jsGetD d k Json.null) := by
  cases d <;> simp [isDict] at h
  rfl

theorem pyGetD_ok (d : Json) (k : String) (dflt : Json) (h : isDict d = true) :
    pyGetD d k dflt = Except.ok (jsGetD d k dflt) := by
  cases d <;> simp [isDict] at h
  rfl

theorem exBind {α β : Type} {x : Except String α} {f : α → Except String β}
    (a : α) (hx : x = Except.ok a) (hf : ∃ b, f a = Except.ok b) :
    ∃ b, (x >>= f) = Except.ok b := by
  obtain ⟨b, hb⟩ := hf
  refine ⟨b, ?_⟩
  rw [hx, ok_bind, hb]

theorem exBindOk {α β : Type} {x : Except String α} {f : α → Except String β}
    (hx : ∃ a, x = Except.ok a) (hf : ∀ a, ∃ b, f a = Except.ok b) :
    ∃ b, (x >>= f) = Except.ok b := by
  obtain ⟨a, ha⟩ := hx
  exact exBind a ha (hf a)

/-- The summarizer `summarize_coord`: prints the coord (nearby) response summary.  Each
element of the returned list is one `print` call, in source order. -/
def summarize_coord (data : Json) : Except String (List String) := do
  let ver ← pyGet data "version"
  let locations ← pyGetD data "locations" (Json.arr [])
  let cnt ← pyLen locations
  let rest ←
    if pyTruthy locations then do
      let loc ← pySub0 locations
      let idv ← pyGet loc "id"
      let namev ← pyGet loc "name"
      let typev ← pyGet loc "type"
      let coordv ← pyGet loc "coord"
      let props ← pyGetD loc "properties" (Json.obj [])
      let distv ← pyGet props "distance"
      let ks ← pyKeys props
      pure (["\nFirst location structure:",
        "  - id: " ++ pyStr idv,
        "  - name: " ++ pyStr namev,
        "  - type: " ++ pyStr typev,
        "  - coord: " ++ pyStr coordv,
        "  - properties.distance: " ++ pyStr distv,
        "  - properties keys: " ++ renderStrList (ks.take 10)])
    else pure []
  pure (["\n=== COORD (NEARBY) RESPONSE ===",
    "Version: " ++ pyStr ver,
    "Locations count: " ++ toString cnt] ++ rest)

/-- Safety condition for `summarize_coord`: the document is a dict, and
every field it accesses that is present has the shape the code applies it
to.  Absent fields are always allowed. -/
def wfCoord (data : Json) : Bool :=
  match data with
  | Json.obj kvs =>
    let locations := (jsonLookup kvs "locations").getD (Json.arr [])
    wfLen locations &&
      (if pyTruthy locations then
        match locations with
        | Json.arr (Json.obj lkvs :: _) =>
          isDict ((jsonLookup lkvs "properties").getD (Json.obj []))
        | _ => false
      else true)
  | _ => false

theorem wfCoord_ok (data : Json) (h : wfCoord data = true) :
    ∃ out, summarize_coord data = Except.ok out := by
  cases data with
  | null => simp [wfCoord] at h
  | bool b => simp [wfCoord] at h
  | num n => simp [wfCoord] at h
  | str s => simp [wfCoord] at h
  | arr l => simp [wfCoord] at h
  | obj kvs =>
    simp only [wfCoord, Bool.and_eq_true] at h
    obtain ⟨hlen, hbr⟩ := h
    unfold summarize_coord
    refine exBind _ rfl ?_
    refine exBind _ rfl ?_
    refine exBindOk (pyLen_ok _ hlen) (fun cnt => ?_)
    by_cases ht : pyTruthy ((jsonLookup kvs "locations").getD (Json.arr [])) = true
    · rw [if_pos ht] at hbr
      simp only [ht, if_true]
      cases htl : (jsonLookup kvs "locations").getD (Json.arr []) with
      | null => rw [htl] at ht; exact Bool.noConfusion ht
      | bool b => rw [htl] at hbr; exact Bool.noConfusion hbr
      | num n2 => rw [htl] at hbr; exact Bool.noConfusion hbr
      | str s => rw [htl] at hbr; exact Bool.noConfusion hbr
      | obj kvs2 => rw [htl] at hbr; exact Bool.noConfusion hbr
      | arr l =>
        cases l with
        | nil => rw [htl] at ht; exact Bool.noConfusion ht
        | cons e rs =>
          cases e with
          | null => rw [htl] at hbr; exact Bool.noConfusion hbr
          | bool b => rw [htl] at hbr; exact Bool.noConfusion hbr
          | num n2 => rw [htl] at hbr; exact Bool.noConfusion hbr
          | str s => rw [htl] at hbr; exact Bool.noConfusion hbr
          | arr l2 => rw [htl] at hbr; exact Bool.noConfusion hbr
          | obj lkvs =>
            rw [htl] at hbr
            have hpd : isDict ((jsonLookup lkvs "properties").getD
              (Json.obj [])) = true := hbr
            refine exBind _ rfl ?_
            refine exBind _ rfl ?_
            refine exBind _ rfl ?_
            refine exBind _ rfl ?_
            refine exBind _ rfl ?_
            refine exBind _ rfl ?_
            cases hpr : (jsonLookup lkvs "properties").getD (Json.obj []) with
            | obj pkvs =>
              refine exBind _ rfl ?_
              refine exBind _ rfl ?_
              exact ⟨_, rfl⟩
            | null => rw [hpr] at hpd; exact Bool.noConfusion hpd
            | bool b => rw [hpr] at hpd; exact Bool.noConfusion hpd
            | num n2 => rw [hpr] at hpd; exact Bool.noConfusion hpd
            | str s2 => rw [hpr] at hpd; exact Bool.noConfusion hpd
            | arr l2 => rw [hpr] at hpd; exact Bool.noConfusion hpd
    · simp only [ht, Bool.false_eq_true, if_false]
      exact ⟨_, rfl⟩

/-- The summarizer `summarize_stop_finder`: prints the stop_finder response summary. -/
def summarize_stop_finder (data : Json) : Except String (List String) := do
  let ver ← pyGet data "version"
  let locations ← pyGetD data "locations" (Json.arr [])
  let cnt ← pyLen locations
  let rest ←
    if pyTruthy locations then do
      let loc ← pySub0 locations
      let idv ← pyGet loc "id"
      let namev ← pyGet loc "name"
      let disv ← pyGet loc "disassembledName"
      let typev ← pyGet loc "type"
      let coordv ← pyGet loc "coord"
      let modesv ← pyGet loc "modes"
      let matchv ← pyGet loc "matchQuality"
      let bestv ← pyGet loc "isBest"
      let parCond ← pyGet loc "parent"
      let parentText ←
        if pyTruthy parCond then do
          let par ← pyGetD loc "parent" (Json.obj [])
          let pn ← pyGet par "name"
          pure (pyStr pn)
        else pure "None"
      let props ← pyGetD loc "properties" (Json.obj [])
      let propLines ←
        if pyTruthy props then do
          let ks ← pyKeys props
          pure ["  - properties keys: " ++ renderStrList (ks.take 10)]
        else pure ([] : List String)
      pure (["\nFirst location structure:",
        "  - id: " ++ pyStr idv,
        "  - name: " ++ pyStr namev,
        "  - disassembledName: " ++ pyStr disv,
        "  - type: " ++ pyStr typev,
        "  - coord: " ++ pyStr coordv,
        "  - modes: " ++ pyStr modesv,
        "  - matchQuality: " ++ pyStr matchv,
        "  - isBest: " ++ pyStr bestv,
        "  - parent: " ++ parentText] ++ propLines)
    else pure []
  pure (["\n=== STOP FINDER RESPONSE ===",
    "Version: " ++ pyStr ver,
    "Locations count: " ++ toString cnt] ++ rest)

/-- Safety condition for `summarize_stop_finder`: a dict document whose
present accessed fields have the shapes the code applies them to. -/
def wfStopFinder (data : Json) : Bool :=
  match data with
  | Json.obj kvs =>
    let locations := (jsonLookup kvs "locations").getD (Json.arr [])
    wfLen locations &&
      (if pyTruthy locations then
        match locations with
        | Json.arr (Json.obj lkvs :: _) =>
          (!pyTruthy ((jsonLookup lkvs "parent").getD Json.null) ||
            isDict ((jsonLookup lkvs "parent").getD (Json.obj []))) &&
          (!pyTruthy ((jsonLookup lkvs "properties").getD (Json.obj [])) ||
            isDict ((jsonLookup lkvs "properties").getD (Json.obj [])))
        | _ => false
      else true)
  | _ => false

theorem wfStopFinder_ok (data : Json) (h : wfStopFinder data = true) :
    ∃ out, summarize_stop_finder data = Except.ok out := by
  cases data with
  | null => exact Bool.noConfusion h
  | bool b => exact Bool.noConfusion h
  | num n => exact Bool.noConfusion h
  | str s => exact Bool.noConfusion h
  | arr l => exact Bool.noConfusion h
  | obj kvs =>
    simp only [wfStopFinder, Bool.and_eq_true] at h
    obtain ⟨hlen, hbr⟩ := h
    unfold summarize_stop_finder
    refine exBind _ rfl ?_
    refine exBind _ rfl ?_
    refine exBindOk (pyLen_ok _ hlen) (fun cnt => ?_)
    by_cases ht : pyTruthy ((jsonLookup kvs "locations").getD (Json.arr [])) = true
    · rw [if_pos ht] at hbr
      simp only [ht, if_true]
      cases htl : (jsonLookup kvs "locations").getD (Json.arr []) with
      | null => rw [htl] at ht; exact Bool.noConfusion ht
      | bool b => rw [htl] at hbr; exact Bool.noConfusion hbr
      | num n2 => rw [htl] at hbr; exact Bool.noConfusion hbr
      | str s => rw [htl] at hbr; exact Bool.noConfusion hbr
      | obj kvs2 => rw [htl] at hbr; exact Bool.noConfusion hbr
      | arr l =>
        cases l with
        | nil => rw [htl] at ht; exact Bool.noConfusion ht
        | cons e rs =>
          cases e with
          | null => rw [htl] at hbr; exact Bool.noConfusion hbr
          | bool b => rw [htl] at hbr; exact Bool.noConfusion hbr
          | num n2 => rw [htl] at hbr; exact Bool.noConfusion hbr
          | str s => rw [htl] at hbr; exact Bool.noConfusion hbr
          | arr l2 => rw [htl] at hbr; exact Bool.noConfusion hbr
          | obj lkvs =>
            rw [htl] at hbr
            have hAB : ((!pyTruthy ((jsonLookup lkvs "parent").getD Json.null) ||
                isDict ((jsonLookup lkvs "parent").getD (Json.obj []))) &&
              (!pyTruthy ((jsonLookup lkvs "properties").getD (Json.obj [])) ||
                isDict ((jsonLookup lkvs "properties").getD (Json.obj [])))) = true := hbr
            rw [Bool.and_eq_true] at hAB
            obtain ⟨hpar, hprop⟩ := hAB
            refine exBind _ rfl ?_
            refine exBind _ rfl ?_
            refine exBind _ rfl ?_
            refine exBind _ rfl ?_
            refine exBind _ rfl ?_
            refine exBind _ rfl ?_
            refine exBind _ rfl ?_
            refine exBind _ rfl ?_
            refine exBind _ rfl ?_
            refine exBind _ rfl ?_
            by_cases hpt : pyTruthy ((jsonLookup lkvs "parent").getD Json.null) = true
            · simp only [hpt, if_true]
              simp only [hpt, Bool.not_true, Bool.false_or] at hpar
              refine exBind _ rfl ?_
              cases hpd2 : (jsonLookup lkvs "parent").getD (Json.obj []) with
              | obj parkvs =>
                refine exBind _ rfl ?_
                refine exBind _ rfl ?_
                refine exBind _ rfl ?_
                by_cases hppt :
                    pyTruthy ((jsonLookup lkvs "properties").getD (Json.obj [])) = true
                · simp only [hppt, if_true]
                  simp only [hppt, Bool.not_true, Bool.false_or] at hprop
                  cases hpq : (jsonLookup lkvs "properties").getD (Json.obj []) with
                  | obj pkvs =>
                    refine exBind _ rfl ?_
                    exact ⟨_, rfl⟩
                  | null => rw [hpq] at hprop; exact Bool.noConfusion hprop
                  | bool b => rw [hpq] at hprop; exact Bool.noConfusion hprop
                  | num n2 => rw [hpq] at hprop; exact Bool.noConfusion hprop
                  | str s2 => rw [hpq] at hprop; exact Bool.noConfusion hprop
                  | arr l2 => rw [hpq] at hprop; exact Bool.noConfusion hprop
                · simp only [hppt, Bool.false_eq_true, if_false]
                  exact ⟨_, rfl⟩
              | null => rw [hpd2] at hpar; exact Bool.noConfusion hpar
              | bool b => rw [hpd2] at hpar; exact Bool.noConfusion hpar
              | num n2 => rw [hpd2] at hpar; exact Bool.noConfusion hpar
              | str s2 => rw [hpd2] at hpar; exact Bool.noConfusion hpar
              | arr l2 => rw [hpd2] at hpar; exact Bool.noConfusion hpar
            · simp only [hpt, Bool.false_eq_true, if_false]
              refine exBind _ rfl ?_
              refine exBind _ rfl ?_
              by_cases hppt :
                  pyTruthy ((jsonLookup lkvs "properties").getD (Json.obj [])) = true
              · simp only [hppt, if_true]
                simp only [hppt, Bool.not_true, Bool.false_or] at hprop
                cases hpq : (jsonLookup lkvs "properties").getD (Json.obj []) with
                | obj pkvs =>
                  refine exBind _ rfl ?_
                  exact ⟨_, rfl⟩
                | null => rw [hpq] at hprop; exact Bool.noConfusion hprop
                | bool b => rw [hpq] at hprop; exact Bool.noConfusion hprop
                | num n2 => rw [hpq] at hprop; exact Bool.noConfusion hprop
                | str s2 => rw [hpq] at hprop; exact Bool.noConfusion hprop
                | arr l2 => rw [hpq] at hprop; exact Bool.noConfusion hprop
              · simp only [hppt, Bool.false_eq_true, if_false]
                exact ⟨_, rfl⟩
    · simp only [ht, Bool.false_eq_true, if_false]
      exact ⟨_, rfl⟩


/-- The summarizer `summarize_departure_mon`: prints the departure_mon response summary. -/
def summarize_departure_mon (data : Json) : Except String (List String) := do
  let ver ← pyGet data "version"
  let locations ← pyGetD data "locations" (Json.arr [])
  let locCnt ← pyLen locations
  let stopEvents ← pyGetD data "stopEvents" (Json.arr [])
  let evCnt ← pyLen stopEvents
  let rest ←
    if pyTruthy stopEvents then do
      let event ← pySub0 stopEvents
      let dtp ← pyGet event "departureTimePlanned"
      let dte ← pyGet event "departureTimeEstimated"
      let rtc ← pyGet event "isRealtimeControlled"
      let loc ← pyGetD event "location" (Json.obj [])
      let lname ← pyGet loc "name"
      let ltype ← pyGet loc "type"
      let lprops ← pyGetD loc "properties" (Json.obj [])
      let lks ← pyKeys lprops
      let trans ← pyGetD event "transportation" (Json.obj [])
      let tnum ← pyGet trans "number"
      let tname ← pyGet trans "name"
      let ticon ← pyGet trans "iconId"
      let tprod ← pyGetD trans "product" (Json.obj [])
      let tclass ← pyGet tprod "class"
      let tdest ← pyGetD trans "destination" (Json.obj [])
      let tdname ← pyGet tdest "name"
      let infos ← pyGetD event "infos" (Json.arr [])
      let infCnt ← pyLen infos
      let onwards ← pyGetD event "onwardLocations" (Json.arr [])
      let onwLines ←
        if pyTruthy onwards then do
          let onwCnt ← pyLen onwards
          let ow ← pySub0 onwards
          let owname ← pyGet ow "name"
          let owprops ← pyGetD ow "properties" (Json.obj [])
          let owks ← pyKeys owprops
          pure ["  - onwardLocations count: " ++ toString onwCnt,
            "    - first onwards: " ++ pyStr owname,
            "    - properties: " ++ renderStrList owks]
        else pure ([] : List String)
      pure (["\nFirst stop event structure:",
        "  - departureTimePlanned: " ++ pyStr dtp,
        "  - departureTimeEstimated: " ++ pyStr dte,
        "  - isRealtimeControlled: " ++ pyStr rtc,
        "  - location.name: " ++ pyStr lname,
        "  - location.type: " ++ pyStr ltype,
        "  - location.properties: " ++ renderStrList (lks.take 5),
        "  - transportation.number: " ++ pyStr tnum,
        "  - transportation.name: " ++ pyStr tname,
        "  - transportation.iconId: " ++ pyStr ticon,
        "  - transportation.product.class: " ++ pyStr tclass,
        "  - transportation.destination.name: " ++ pyStr tdname,
        "  - infos count: " ++ toString infCnt] ++ onwLines)
    else pure []
  pure (["\n=== DEPARTURE MONITOR RESPONSE ===",
    "Version: " ++ pyStr ver,
    "Locations count: " ++ toString locCnt,
    "Stop events count: " ++ toString evCnt] ++ rest)

/-- Safety condition for `summarize_departure_mon`. -/
def wfDepartureMon (data : Json) : Bool :=
  match data with
  | Json.obj kvs =>
    wfLen ((jsonLookup kvs "locations").getD (Json.arr [])) &&
    wfLen ((jsonLookup kvs "stopEvents").getD (Json.arr [])) &&
    (if pyTruthy ((jsonLookup kvs "stopEvents").getD (Json.arr [])) then
      match (jsonLookup kvs "stopEvents").getD (Json.arr []) with
      | Json.arr (Json.obj ekvs :: _) =>
        (match (jsonLookup ekvs "location").getD (Json.obj []) with
         | Json.obj lkvs => isDict ((jsonLookup lkvs "properties").getD (Json.obj []))
         | _ => false) &&
        (match (jsonLookup ekvs "transportation").getD (Json.obj []) with
         | Json.obj tkvs =>
           isDict ((jsonLookup tkvs "product").getD (Json.obj [])) &&
           isDict ((jsonLookup tkvs "destination").getD (Json.obj []))
         | _ => false) &&
        wfLen ((jsonLookup ekvs "infos").getD (Json.arr [])) &&
        (if pyTruthy ((jsonLookup ekvs "onwardLocations").getD (Json.arr [])) then
          match (jsonLookup ekvs "onwardLocations").getD (Json.arr []) with
          | Json.arr (Json.obj owkvs :: _) =>
            isDict ((jsonLookup owkvs "properties").getD (Json.obj []))
          | _ => false
        else true)
      | _ => false
    else true)
  | _ => false

theorem wfDepartureMon_ok (data : Json) (h : wfDepartureMon data = true) :
    ∃ out, summarize_departure_mon data = Except.ok out := by
  cases data with
  | null => exact Bool.noConfusion h
  | bool b => exact Bool.noConfusion h
  | num n => exact Bool.noConfusion h
  | str s => exact Bool.noConfusion h
  | arr l => exact Bool.noConfusion h
  | obj kvs =>
    simp only [wfDepartureMon, Bool.and_eq_true] at h
    obtain ⟨⟨hlen1, hlen2⟩, hbr⟩ := h
    unfold summarize_departure_mon
    refine exBind _ rfl ?_
    refine exBind _ rfl ?_
    refine exBindOk (pyLen_ok _ hlen1) (fun locCnt => ?_)
    refine exBind _ rfl ?_
    refine exBindOk (pyLen_ok _ hlen2) (fun evCnt => ?_)
    by_cases ht : pyTruthy ((jsonLookup kvs "stopEvents").getD (Json.arr [])) = true
    · rw [if_pos ht] at hbr
      simp only [ht, if_true]
      cases htl : (jsonLookup kvs "stopEvents").getD (Json.arr []) with
      | null => rw [htl] at ht; exact Bool.noConfusion ht
      | bool b => rw [htl] at hbr; exact Bool.noConfusion hbr
      | num n2 => rw [htl] at hbr; exact Bool.noConfusion hbr
      | str s => rw [htl] at hbr; exact Bool.noConfusion hbr
      | obj kvs2 => rw [htl] at hbr; exact Bool.noConfusion hbr
      | arr l =>
        cases l with
        | nil => rw [htl] at ht; exact Bool.noConfusion ht
        | cons e rs =>
          cases e with
          | null => rw [htl] at hbr; exact Bool.noConfusion hbr
          | bool b => rw [htl] at hbr; exact Bool.noConfusion hbr
          | num n2 => rw [htl] at hbr; exact Bool.noConfusion hbr
          | str s => rw [htl] at hbr; exact Bool.noConfusion hbr
          | arr l2 => rw [htl] at hbr; exact Bool.noConfusion hbr
          | obj ekvs =>
            rw [htl] at hbr
            simp only [Bool.and_eq_true] at hbr
            obtain ⟨⟨⟨hloc, htrans⟩, hinfos⟩, honw⟩ := hbr
            refine exBind _ rfl ?_
            refine exBind _ rfl ?_
            refine exBind _ rfl ?_
            refine exBind _ rfl ?_
            refine exBind _ rfl ?_
            cases hlo : (jsonLookup ekvs "location").getD (Json.obj []) with
            | null => rw [hlo] at hloc; exact Bool.noConfusion hloc
            | bool b => rw [hlo] at hloc; exact Bool.noConfusion hloc
            | num n2 => rw [hlo] at hloc; exact Bool.noConfusion hloc
            | str s => rw [hlo] at hloc; exact Bool.noConfusion hloc
            | arr l2 => rw [hlo] at hloc; exact Bool.noConfusion hloc
            | obj lkvs =>
              rw [hlo] at hloc
              have hlp2 : isDict ((jsonLookup lkvs "properties").getD
                (Json.obj [])) = true := hloc
              refine exBind _ rfl ?_
              refine exBind _ rfl ?_
              refine exBind _ rfl ?_
              cases hlp : (jsonLookup lkvs "properties").getD (Json.obj []) with
              | null => rw [hlp] at hlp2; exact Bool.noConfusion hlp2
              | bool b => rw [hlp] at hlp2; exact Bool.noConfusion hlp2
              | num n2 => rw [hlp] at hlp2; exact Bool.noConfusion hlp2
              | str s => rw [hlp] at hlp2; exact Bool.noConfusion hlp2
              | arr l2 => rw [hlp] at hlp2; exact Bool.noConfusion hlp2
              | obj lpkvs =>
                refine exBind _ rfl ?_
                refine exBind _ rfl ?_
                cases htr : (jsonLookup ekvs "transportation").getD (Json.obj []) with
                | null => rw [htr] at htrans; exact Bool.noConfusion htrans
                | bool b => rw [htr] at htrans; exact Bool.noConfusion htrans
                | num n2 => rw [htr] at htrans; exact Bool.noConfusion htrans
                | str s => rw [htr] at htrans; exact Bool.noConfusion htrans
                | arr l2 => rw [htr] at htrans; exact Bool.noConfusion htrans
                | obj tkvs =>
                  rw [htr] at htrans
                  simp only [Bool.and_eq_true] at htrans
                  obtain ⟨hprod, hdest⟩ := htrans
                  refine exBind _ rfl ?_
                  refine exBind _ rfl ?_
                  refine exBind _ rfl ?_
                  refine exBind _ rfl ?_
                  cases hprd : (jsonLookup tkvs "product").getD (Json.obj []) with
                  | null => rw [hprd] at hprod; exact Bool.noConfusion hprod
                  | bool b => rw [hprd] at hprod; exact Bool.noConfusion hprod
                  | num n2 => rw [hprd] at hprod; exact Bool.noConfusion hprod
                  | str s => rw [hprd] at hprod; exact Bool.noConfusion hprod
                  | arr l2 => rw [hprd] at hprod; exact Bool.noConfusion hprod
                  | obj prkvs =>
                    refine exBind _ rfl ?_
                    refine exBind _ rfl ?_
                    cases hdst : (jsonLookup tkvs "destination").getD (Json.obj []) with
                    | null => rw [hdst] at hdest; exact Bool.noConfusion hdest
                    | bool b => rw [hdst] at hdest; exact Bool.noConfusion hdest
                    | num n2 => rw [hdst] at hdest; exact Bool.noConfusion hdest
                    | str s => rw [hdst] at hdest; exact Bool.noConfusion hdest
                    | arr l2 => rw [hdst] at hdest; exact Bool.noConfusion hdest
                    | obj dkvs =>
                      refine exBind _ rfl ?_
                      refine exBind _ rfl ?_
                      refine exBindOk (pyLen_ok _ hinfos) (fun infCnt => ?_)
                      refine exBind _ rfl ?_
                      by_cases hot : pyTruthy ((jsonLookup ekvs
                        "onwardLocations").getD (Json.arr [])) = true
                      · rw [if_pos hot] at honw
                        simp only [hot, if_true]
                        cases hoa : (jsonLookup ekvs "onwardLocations").getD
                            (Json.arr []) with
                        | null => rw [hoa] at hot; exact Bool.noConfusion hot
                        | bool b => rw [hoa] at honw; exact Bool.noConfusion honw
                        | num n2 => rw [hoa] at honw; exact Bool.noConfusion honw
                        | str s => rw [hoa] at honw; exact Bool.noConfusion honw
                        | obj kvs3 => rw [hoa] at honw; exact Bool.noConfusion honw
                        | arr l3 =>
                          cases l3 with
                          | nil => rw [hoa] at hot; exact Bool.noConfusion hot
                          | cons ow ors =>
                            cases ow with
                            | null => rw [hoa] at honw; exact Bool.noConfusion honw
                            | bool b => rw [hoa] at honw; exact Bool.noConfusion honw
                            | num n2 => rw [hoa] at honw; exact Bool.noConfusion honw
                            | str s => rw [hoa] at honw; exact Bool.noConfusion honw
                            | arr l4 => rw [hoa] at honw; exact Bool.noConfusion honw
                            | obj owkvs =>
                              rw [hoa] at honw
                              have how2 : isDict ((jsonLookup owkvs
                                "properties").getD (Json.obj [])) = true := honw
                              refine exBind _ rfl ?_
                              refine exBind _ rfl ?_
                              refine exBind _ rfl ?_
                              refine exBind _ rfl ?_
                              cases howp : (jsonLookup owkvs "properties").getD
                                  (Json.obj []) with
                              | obj owpkvs =>
                                refine exBind _ rfl ?_
                                exact ⟨_, rfl⟩
                              | null => rw [howp] at how2; exact Bool.noConfusion how2
                              | bool b => rw [howp] at how2; exact Bool.noConfusion how2
                              | num n2 => rw [howp] at how2; exact Bool.noConfusion how2
                              | str s => rw [howp] at how2; exact Bool.noConfusion how2
                              | arr l4 => rw [howp] at how2; exact Bool.noConfusion how2
                      · simp only [hot, Bool.false_eq_true, if_false]
                        exact ⟨_, rfl⟩
    · simp only [ht, Bool.false_eq_true, if_false]
      exact ⟨_, rfl⟩


/-- The summarizer `summarize_add_info`: prints the add_info (service alerts) summary. -/
def summarize_add_info (data : Json) : Except String (List String) := do
  let ver ← pyGet data "version"
  let tsv ← pyGet data "timestamp"
  let infos ← pyGetD data "infos" (Json.obj [])
  let current ← pyGetD infos "current" (Json.arr [])
  let curCnt ← pyLen current
  let affected ← pyGetD infos "affected" (Json.obj [])
  let affStops ← pyGetD affected "stops" (Json.arr [])
  let nStops ← pyLen affStops
  let affLines ← pyGetD affected "lines" (Json.arr [])
  let nLines ← pyLen affLines
  let rest ←
    if pyTruthy current then do
      let alert ← pySub0 current
      let idv ← pyGet alert "id"
      let verv ← pyGet alert "version"
      let typev ← pyGet alert "type"
      let priov ← pyGet alert "priority"
      let subv ← pyGetD alert "subtitle" (Json.str "N/A")
      let subs ← pySlice subv 60
      let contentv ← pyGetD alert "content" (Json.str "")
      let contentLen ← pyLen contentv
      let urlv ← pyGetD alert "url" (Json.str "N/A")
      let urls ← pySlice urlv 50
      let ts ← pyGetD alert "timestamps" (Json.obj [])
      let tcre ← pyGet ts "creation"
      let tmod ← pyGet ts "lastModification"
      let tval ← pyGetD ts "validity" (Json.arr [])
      let nVal ← pyLen tval
      let aff2 ← pyGetD alert "affected" (Json.obj [])
      let a2lines ← pyGetD aff2 "lines" (Json.arr [])
      let nA2l ← pyLen a2lines
      let a2stops ← pyGetD aff2 "stops" (Json.arr [])
      let nA2s ← pyLen a2stops
      let props ← pyGetD alert "properties" (Json.obj [])
      let ks ← pyKeys props
      pure (["\nFirst alert structure:",
        "  - id: " ++ pyStr idv,
        "  - version: " ++ pyStr verv,
        "  - type: " ++ pyStr typev,
        "  - priority: " ++ pyStr priov,
        "  - subtitle: " ++ pyStr subs,
        "  - content length: " ++ toString contentLen,
        "  - url: " ++ pyStr urls,
        "  - timestamps.creation: " ++ pyStr tcre,
        "  - timestamps.lastModification: " ++ pyStr tmod,
        "  - timestamps.validity count: " ++ toString nVal,
        "  - affected.lines count: " ++ toString nA2l,
        "  - affected.stops count: " ++ toString nA2s,
        "  - properties keys: " ++ renderStrList ks])
    else pure []
  pure (["\n=== ADD_INFO (SERVICE ALERTS) RESPONSE ===",
    "Version: " ++ pyStr ver,
    "Timestamp: " ++ pyStr tsv,
    "Current alerts count: " ++ toString curCnt,
    "Total affected stops: " ++ toString nStops,
    "Total affected lines: " ++ toString nLines] ++ rest)

/-- Safety condition for `summarize_add_info`. -/
def wfAddInfo (data : Json) : Bool :=
  match data with
  | Json.obj kvs =>
    match (jsonLookup kvs "infos").getD (Json.obj []) with
    | Json.obj ikvs =>
      wfLen ((jsonLookup ikvs "current").getD (Json.arr [])) &&
      (match (jsonLookup ikvs "affected").getD (Json.obj []) with
       | Json.obj afkvs =>
         wfLen ((jsonLookup afkvs "stops").getD (Json.arr [])) &&
         wfLen ((jsonLookup afkvs "lines").getD (Json.arr []))
       | _ => false) &&
      (if pyTruthy ((jsonLookup ikvs "current").getD (Json.arr [])) then
        match (jsonLookup ikvs "current").getD (Json.arr []) with
        | Json.arr (Json.obj akvs :: _) =>
          isSliceable ((jsonLookup akvs "subtitle").getD (Json.str "N/A")) &&
          wfLen ((jsonLookup akvs "content").getD (Json.str "")) &&
          isSliceable ((jsonLookup akvs "url").getD (Json.str "N/A")) &&
          (match (jsonLookup akvs "timestamps").getD (Json.obj []) with
           | Json.obj tskvs =>
             wfLen ((jsonLookup tskvs "validity").getD (Json.arr []))
           | _ => false) &&
          (match (jsonLookup akvs "affected").getD (Json.obj []) with
           | Json.obj a2kvs =>
             wfLen ((jsonLookup a2kvs "lines").getD (Json.arr [])) &&
             wfLen ((jsonLookup a2kvs "stops").getD (Json.arr []))
           | _ => false) &&
          isDict ((jsonLookup akvs "properties").getD (Json.obj []))
        | _ => false
      else true)
    | _ => false
  | _ => false

theorem wfAddInfo_ok (data : Json) (h : wfAddInfo data = true) :
    ∃ out, summarize_add_info data = Except.ok out := by
  cases data with
  | null => exact Bool.noConfusion h
  | bool b => exact Bool.noConfusion h
  | num n => exact Bool.noConfusion h
  | str s => exact Bool.noConfusion h
  | arr l => exact Bool.noConfusion h
  | obj kvs =>
    unfold summarize_add_info
    refine exBind _ rfl ?_
    refine exBind _ rfl ?_
    refine exBind _ rfl ?_
    cases hin : (jsonLookup kvs "infos").getD (Json.obj []) with
    | null => rw [wfAddInfo, hin] at h; exact Bool.noConfusion h
    | bool b => rw [wfAddInfo, hin] at h; exact Bool.noConfusion h
    | num n => rw [wfAddInfo, hin] at h; exact Bool.noConfusion h
    | str s => rw [wfAddInfo, hin] at h; exact Bool.noConfusion h
    | arr l => rw [wfAddInfo, hin] at h; exact Bool.noConfusion h
    | obj ikvs =>
      rw [wfAddInfo, hin] at h
      simp only [Bool.and_eq_true] at h
      obtain ⟨⟨hcur, haff⟩, hbr⟩ := h
      refine exBind _ rfl ?_
      refine exBindOk (pyLen_ok _ hcur) (fun curCnt => ?_)
      refine exBind _ rfl ?_
      cases haf : (jsonLookup ikvs "affected").getD (Json.obj []) with
      | null => rw [haf] at haff; exact Bool.noConfusion haff
      | bool b => rw [haf] at haff; exact Bool.noConfusion haff
      | num n2 => rw [haf] at haff; exact Bool.noConfusion haff
      | str s => rw [haf] at haff; exact Bool.noConfusion haff
      | arr l2 => rw [haf] at haff; exact Bool.noConfusion haff
      | obj afkvs =>
        rw [haf] at haff
        simp only [Bool.and_eq_true] at haff
        obtain ⟨hst, hln⟩ := haff
        refine exBind _ rfl ?_
        refine exBindOk (pyLen_ok _ hst) (fun nStops => ?_)
        refine exBind _ rfl ?_
        refine exBindOk (pyLen_ok _ hln) (fun nLines => ?_)
        by_cases ht : pyTruthy ((jsonLookup ikvs "current").getD (Json.arr [])) = true
        · rw [if_pos ht] at hbr
          simp only [ht, if_true]
          cases hct : (jsonLookup ikvs "current").getD (Json.arr []) with
          | null => rw [hct] at ht; exact Bool.noConfusion ht
          | bool b => rw [hct] at hbr; exact Bool.noConfusion hbr
          | num n4 => rw [hct] at hbr; exact Bool.noConfusion hbr
          | str s => rw [hct] at hbr; exact Bool.noConfusion hbr
          | obj kvs2 => rw [hct] at hbr; exact Bool.noConfusion hbr
          | arr l2 =>
            cases l2 with
            | nil => rw [hct] at ht; exact Bool.noConfusion ht
            | cons e rs =>
              cases e with
              | null => rw [hct] at hbr; exact Bool.noConfusion hbr
              | bool b => rw [hct] at hbr; exact Bool.noConfusion hbr
              | num n4 => rw [hct] at hbr; exact Bool.noConfusion hbr
              | str s => rw [hct] at hbr; exact Bool.noConfusion hbr
              | arr l3 => rw [hct] at hbr; exact Bool.noConfusion hbr
              | obj akvs =>
                rw [hct] at hbr
                simp only [Bool.and_eq_true] at hbr
                obtain ⟨⟨⟨⟨⟨hsub, hcont⟩, hurl⟩, hts⟩, haf2⟩, hprops⟩ := hbr
                refine exBind _ rfl ?_
                refine exBind _ rfl ?_
                refine exBind _ rfl ?_
                refine exBind _ rfl ?_
                refine exBind _ rfl ?_
                refine exBind _ rfl ?_
                refine exBindOk (pySlice_ok _ 60 hsub) (fun subs => ?_)
                refine exBind _ rfl ?_
                refine exBindOk (pyLen_ok _ hcont) (fun contentLen => ?_)
                refine exBind _ rfl ?_
                refine exBindOk (pySlice_ok _ 50 hurl) (fun urls => ?_)
                refine exBind _ rfl ?_
                cases hts2 : (jsonLookup akvs "timestamps").getD (Json.obj []) with
                | null => rw [hts2] at hts; exact Bool.noConfusion hts
                | bool b => rw [hts2] at hts; exact Bool.noConfusion hts
                | num n4 => rw [hts2] at hts; exact Bool.noConfusion hts
                | str s => rw [hts2] at hts; exact Bool.noConfusion hts
                | arr l3 => rw [hts2] at hts; exact Bool.noConfusion hts
                | obj tskvs =>
                  rw [hts2] at hts
                  have hts3 : wfLen ((jsonLookup tskvs "validity").getD
                    (Json.arr [])) = true := hts
                  refine exBind _ rfl ?_
                  refine exBind _ rfl ?_
                  refine exBind _ rfl ?_
                  refine exBindOk (pyLen_ok _ hts3) (fun nVal => ?_)
                  refine exBind _ rfl ?_
                  cases haf3 : (jsonLookup akvs "affected").getD (Json.obj []) with
                  | null => rw [haf3] at haf2; exact Bool.noConfusion haf2
                  | bool b => rw [haf3] at haf2; exact Bool.noConfusion haf2
                  | num n4 => rw [haf3] at haf2; exact Bool.noConfusion haf2
                  | str s => rw [haf3] at haf2; exact Bool.noConfusion haf2
                  | arr l3 => rw [haf3] at haf2; exact Bool.noConfusion haf2
                  | obj a2kvs =>
                    rw [haf3] at haf2
                    simp only [Bool.and_eq_true] at haf2
                    obtain ⟨hl2, hs2⟩ := haf2
                    refine exBind _ rfl ?_
                    refine exBindOk (pyLen_ok _ hl2) (fun nA2l => ?_)
                    refine exBind _ rfl ?_
                    refine exBindOk (pyLen_ok _ hs2) (fun nA2s => ?_)
                    refine exBind _ rfl ?_
                    cases hpp : (jsonLookup akvs "properties").getD (Json.obj []) with
                    | obj pkvs =>
                      refine exBind _ rfl ?_
                      exact ⟨_, rfl⟩
                    | null => rw [hpp] at hprops; exact Bool.noConfusion hprops
                    | bool b => rw [hpp] at hprops; exact Bool.noConfusion hprops
                    | num n4 => rw [hpp] at hprops; exact Bool.noConfusion hprops
                    | str s => rw [hpp] at hprops; exact Bool.noConfusion hprops
                    | arr l3 => rw [hpp] at hprops; exact Bool.noConfusion hprops
        · simp only [ht, Bool.false_eq_true, if_false]
          exact ⟨_, rfl⟩


/-- The `if tickets:` block of `summarize_trip`. -/
def tripTicketBlock (tickets : Json) : Except String (List String) :=
  if pyTruthy tickets then do
    let t ← pySub0 tickets
    let tname ← pyGet t "name"
    let tperson ← pyGet t "person"
    let tprice ← pyGet t "priceBrutto"
    let tprops ← pyGetD t "properties" (Json.obj [])
    let tks ← pyKeys tprops
    pure ["    - first ticket: " ++ pyStr tname ++ " - person: " ++ pyStr tperson,
      "    - priceBrutto: " ++ pyStr tprice,
      "    - properties keys: " ++ renderStrList (tks.take 8)]
  else pure []

/-- The `if infos:` block of `summarize_trip`.  Python evaluates the inner
default (the `title` lookup with fallback `N/A`) before the outer lookup. -/
def tripInfoBlock (infos : Json) : Except String (List String) :=
  if pyTruthy infos then do
    let info ← pySub0 infos
    let ttl ← pyGetD info "title" (Json.str "N/A")
    let sub ← pyGetD info "subtitle" ttl
    let subs ← pySlice sub 60
    pure ["      - first alert: " ++ pyStr subs]
  else pure []

/-- The `if legs:` block of `summarize_trip`. -/
def tripLegBlock (legs : Json) : Except String (List String) :=
  if pyTruthy legs then do
    let leg ← pySub0 legs
    let dur ← pyGet leg "duration"
    let dist ← pyGet leg "distance"
    let rtc ← pyGet leg "isRealtimeControlled"
    let origin ← pyGetD leg "origin" (Json.obj [])
    let oname ← pyGet origin "name"
    let odtp ← pyGet origin "departureTimePlanned"
    let odte ← pyGet origin "departureTimeEstimated"
    let oprops ← pyGetD origin "properties" (Json.obj [])
    let oks ← pyKeys oprops
    let dest ← pyGetD leg "destination" (Json.obj [])
    let dname ← pyGet dest "name"
    let trans ← pyGetD leg "transportation" (Json.obj [])
    let tnum ← pyGet trans "number"
    let tprod ← pyGetD trans "product" (Json.obj [])
    let tclass ← pyGet tprod "class"
    let stopSeq ← pyGetD leg "stopSequence" (Json.arr [])
    let ssCnt ← pyLen stopSeq
    let coords ← pyGetD leg "coords" (Json.arr [])
    let coCnt ← pyLen coords
    let infos ← pyGetD leg "infos" (Json.arr [])
    let infCnt ← pyLen infos
    let infoLines ← tripInfoBlock infos
    let hints ← pyGetD leg "hints" (Json.arr [])
    let hintCnt ← pyLen hints
    let props ← pyGetD leg "properties" (Json.obj [])
    let pks ← pyKeys props
    pure (["\n  First leg structure:",
      "    - duration: " ++ pyStr dur ++ " seconds",
      "    - distance: " ++ pyStr dist ++ " meters",
      "    - isRealtimeControlled: " ++ pyStr rtc,
      "    - origin.name: " ++ pyStr oname,
      "    - origin.departureTimePlanned: " ++ pyStr odtp,
      "    - origin.departureTimeEstimated: " ++ pyStr odte,
      "    - origin.properties keys: " ++ renderStrList oks,
      "    - destination.name: " ++ pyStr dname,
      "    - transportation.number: " ++ pyStr tnum,
      "    - transportation.product.class: " ++ pyStr tclass,
      "    - stopSequence count: " ++ toString ssCnt,
      "    - coords count: " ++ toString coCnt,
      "    - infos (alerts) count: " ++ toString infCnt] ++ infoLines ++
      ["    - hints count: " ++ toString hintCnt,
      "    - properties keys: " ++ renderStrList pks])
  else pure []

/-- The summarizer `summarize_trip`: prints the trip response summary. -/
def summarize_trip (data : Json) : Except String (List String) := do
  let ver ← pyGet data "version"
  let journeys ← pyGetD data "journeys" (Json.arr [])
  let jCnt ← pyLen journeys
  let rest ←
    if pyTruthy journeys then do
      let journey ← pySub0 journeys
      let interch ← pyGet journey "interchanges"
      let isAdd ← pyGet journey "isAdditional"
      let legs ← pyGetD journey "legs" (Json.arr [])
      let legCnt ← pyLen legs
      let fare ← pyGetD journey "fare" (Json.obj [])
      let tickets ← pyGetD fare "tickets" (Json.arr [])
      let tickCnt ← pyLen tickets
      let tickLines ← tripTicketBlock tickets
      let legLines ← tripLegBlock legs
      pure (["\nFirst journey structure:",
        "  - interchanges: " ++ pyStr interch,
        "  - isAdditional: " ++ pyStr isAdd,
        "  - legs count: " ++ toString legCnt,
        "  - fare.tickets count: " ++ toString tickCnt] ++ tickLines ++ legLines)
    else pure []
  pure (["\n=== TRIP RESPONSE ===",
    "Version: " ++ pyStr ver,
    "Journeys count: " ++ toString jCnt] ++ rest)

/-- Safety condition for the tickets block. -/
def wfTicketsB (tickets : Json) : Bool :=
  if pyTruthy tickets then
    match tickets with
    | Json.arr (Json.obj tkvs :: _) =>
      isDict ((jsonLookup tkvs "properties").getD (Json.obj []))
    | _ => false
  else true

/-- Safety condition for the infos block. -/
def wfInfosB (infos : Json) : Bool :=
  if pyTruthy infos then
    match infos with
    | Json.arr (Json.obj inkvs :: _) =>
      isSliceable ((jsonLookup inkvs "subtitle").getD
        ((jsonLookup inkvs "title").getD (Json.str "N/A")))
    | _ => false
  else true

/-- Safety condition for the legs block. -/
def wfLegsB (legs : Json) : Bool :=
  if pyTruthy legs then
    match legs with
    | Json.arr (Json.obj lkvs :: _) =>
      (match (jsonLookup lkvs "origin").getD (Json.obj []) with
       | Json.obj okvs => isDict ((jsonLookup okvs "properties").getD (Json.obj []))
       | _ => false) &&
      isDict ((jsonLookup lkvs "destination").getD (Json.obj [])) &&
      (match (jsonLookup lkvs "transportation").getD (Json.obj []) with
       | Json.obj trkvs => isDict ((jsonLookup trkvs "product").getD (Json.obj []))
       | _ => false) &&
      wfLen ((jsonLookup lkvs "stopSequence").getD (Json.arr [])) &&
      wfLen ((jsonLookup lkvs "coords").getD (Json.arr [])) &&
      wfLen ((jsonLookup lkvs "infos").getD (Json.arr [])) &&
      wfInfosB ((jsonLookup lkvs "infos").getD (Json.arr [])) &&
      wfLen ((jsonLookup lkvs "hints").getD (Json.arr [])) &&
      isDict ((jsonLookup lkvs "properties").getD (Json.obj []))
    | _ => false
  else true

/-- Safety condition for `summarize_trip`. -/
def wfTrip (data : Json) : Bool :=
  match data with
  | Json.obj kvs =>
    wfLen ((jsonLookup kvs "journeys").getD (Json.arr [])) &&
    (if pyTruthy ((jsonLookup kvs "journeys").getD (Json.arr [])) then
      match (jsonLookup kvs "journeys").getD (Json.arr []) with
      | Json.arr (Json.obj jkvs :: _) =>
        wfLen ((jsonLookup jkvs "legs").getD (Json.arr [])) &&
        (match (jsonLookup jkvs "fare").getD (Json.obj []) with
         | Json.obj fkvs =>
           wfLen ((jsonLookup fkvs "tickets").getD (Json.arr [])) &&
           wfTicketsB ((jsonLookup fkvs "tickets").getD (Json.arr []))
         | _ => false) &&
        wfLegsB ((jsonLookup jkvs "legs").getD (Json.arr []))
      | _ => false
    else true)
  | _ => false

theorem tripTicketBlock_ok (tickets : Json) (h : wfTicketsB tickets = true) :
    ∃ out, tripTicketBlock tickets = Except.ok out := by
  unfold tripTicketBlock
  unfold wfTicketsB at h
  by_cases ht : pyTruthy tickets = true
  · rw [if_pos ht] at h ⊢
    cases tickets with
    | null => exact Bool.noConfusion h
    | bool b => exact Bool.noConfusion h
    | num n => exact Bool.noConfusion h
    | str s => exact Bool.noConfusion h
    | obj kvs2 => exact Bool.noConfusion h
    | arr l =>
      cases l with
      | nil => exact Bool.noConfusion ht
      | cons e rs =>
        cases e with
        | null => exact Bool.noConfusion h
        | bool b => exact Bool.noConfusion h
        | num n => exact Bool.noConfusion h
        | str s => exact Bool.noConfusion h
        | arr l2 => exact Bool.noConfusion h
        | obj tkvs =>
          have h2 : isDict ((jsonLookup tkvs "properties").getD
            (Json.obj [])) = true := h
          refine exBind _ rfl ?_
          refine exBind _ rfl ?_
          refine exBind _ rfl ?_
          refine exBind _ rfl ?_
          refine exBind _ rfl ?_
          cases htp : (jsonLookup tkvs "properties").getD (Json.obj []) with
          | obj tpkvs =>
            refine exBind _ rfl ?_
            exact ⟨_, rfl⟩
          | null => rw [htp] at h2; exact Bool.noConfusion h2
          | bool b => rw [htp] at h2; exact Bool.noConfusion h2
          | num n => rw [htp] at h2; exact Bool.noConfusion h2
          | str s => rw [htp] at h2; exact Bool.noConfusion h2
          | arr l2 => rw [htp] at h2; exact Bool.noConfusion h2
  · rw [if_neg ht]
    exact ⟨_, rfl⟩

theorem tripInfoBlock_ok (infos : Json) (h : wfInfosB infos = true) :
    ∃ out, tripInfoBlock infos = Except.ok out := by
  unfold tripInfoBlock
  unfold wfInfosB at h
  by_cases ht : pyTruthy infos = true
  · rw [if_pos ht] at h ⊢
    cases infos with
    | null => exact Bool.noConfusion h
    | bool b => exact Bool.noConfusion h
    | num n => exact Bool.noConfusion h
    | str s => exact Bool.noConfusion h
    | obj kvs2 => exact Bool.noConfusion h
    | arr l =>
      cases l with
      | nil => exact Bool.noConfusion ht
      | cons e rs =>
        cases e with
        | null => exact Bool.noConfusion h
        | bool b => exact Bool.noConfusion h
        | num n => exact Bool.noConfusion h
        | str s => exact Bool.noConfusion h
        | arr l2 => exact Bool.noConfusion h
        | obj inkvs =>
          have h2 : isSliceable ((jsonLookup inkvs "subtitle").getD
            ((jsonLookup inkvs "title").getD (Json.str "N/A"))) = true := h
          refine exBind _ rfl ?_
          refine exBind _ rfl ?_
          refine exBind _ rfl ?_
          refine exBindOk (pySlice_ok _ 60 h2) (fun subs => ?_)
          exact ⟨_, rfl⟩
  · rw [if_neg ht]
    exact ⟨_, rfl⟩

theorem tripLegBlock_ok (legs : Json) (h : wfLegsB legs = true) :
    ∃ out, tripLegBlock legs = Except.ok out := by
  unfold tripLegBlock
  unfold wfLegsB at h
  by_cases ht : pyTruthy legs = true
  · rw [if_pos ht] at h ⊢
    cases legs with
    | null => exact Bool.noConfusion h
    | bool b => exact Bool.noConfusion h
    | num n => exact Bool.noConfusion h
    | str s => exact Bool.noConfusion h
    | obj kvs2 => exact Bool.noConfusion h
    | arr l =>
      cases l with
      | nil => exact Bool.noConfusion ht
      | cons e rs =>
        cases e with
        | null => exact Bool.noConfusion h
        | bool b => exact Bool.noConfusion h
        | num n => exact Bool.noConfusion h
        | str s => exact Bool.noConfusion h
        | arr l2 => exact Bool.noConfusion h
        | obj lkvs =>
          simp only [Bool.and_eq_true] at h
          obtain ⟨⟨⟨⟨⟨⟨⟨⟨hor, hdst⟩, htr⟩, hss⟩, hco⟩, hinf⟩, hinfb⟩, hhin⟩, hprops⟩ := h
          refine exBind _ rfl ?_
          refine exBind _ rfl ?_
          refine exBind _ rfl ?_
          refine exBind _ rfl ?_
          refine exBind _ rfl ?_
          cases hor2 : (jsonLookup lkvs "origin").getD (Json.obj []) with
          | null => rw [hor2] at hor; exact Bool.noConfusion hor
          | bool b => rw [hor2] at hor; exact Bool.noConfusion hor
          | num n => rw [hor2] at hor; exact Bool.noConfusion hor
          | str s => rw [hor2] at hor; exact Bool.noConfusion hor
          | arr l2 => rw [hor2] at hor; exact Bool.noConfusion hor
          | obj okvs =>
            rw [hor2] at hor
            have hor3 : isDict ((jsonLookup okvs "properties").getD
              (Json.obj [])) = true := hor
            refine exBind _ rfl ?_
            refine exBind _ rfl ?_
            refine exBind _ rfl ?_
            refine exBind _ rfl ?_
            cases hop : (jsonLookup okvs "properties").getD (Json.obj []) with
            | null => rw [hop] at hor3; exact Bool.noConfusion hor3
            | bool b => rw [hop] at hor3; exact Bool.noConfusion hor3
            | num n => rw [hop] at hor3; exact Bool.noConfusion hor3
            | str s => rw [hop] at hor3; exact Bool.noConfusion hor3
            | arr l2 => rw [hop] at hor3; exact Bool.noConfusion hor3
            | obj opkvs =>
              refine exBind _ rfl ?_
              refine exBind _ rfl ?_
              cases hds : (jsonLookup lkvs "destination").getD (Json.obj []) with
              | null => rw [hds] at hdst; exact Bool.noConfusion hdst
              | bool b => rw [hds] at hdst; exact Bool.noConfusion hdst
              | num n => rw [hds] at hdst; exact Bool.noConfusion hdst
              | str s => rw [hds] at hdst; exact Bool.noConfusion hdst
              | arr l2 => rw [hds] at hdst; exact Bool.noConfusion hdst
              | obj dkvs =>
                refine exBind _ rfl ?_
                refine exBind _ rfl ?_
                cases htr2 : (jsonLookup lkvs "transportation").getD (Json.obj []) with
                | null => rw [htr2] at htr; exact Bool.noConfusion htr
                | bool b => rw [htr2] at htr; exact Bool.noConfusion htr
                | num n => rw [htr2] at htr; exact Bool.noConfusion htr
                | str s => rw [htr2] at htr; exact Bool.noConfusion htr
                | arr l2 => rw [htr2] at htr; exact Bool.noConfusion htr
                | obj trkvs =>
                  rw [htr2] at htr
                  have htr3 : isDict ((jsonLookup trkvs "product").getD
                    (Json.obj [])) = true := htr
                  refine exBind _ rfl ?_
                  refine exBind _ rfl ?_
                  cases hprd : (jsonLookup trkvs "product").getD (Json.obj []) with
                  | null => rw [hprd] at htr3; exact Bool.noConfusion htr3
                  | bool b => rw [hprd] at htr3; exact Bool.noConfusion htr3
                  | num n => rw [hprd] at htr3; exact Bool.noConfusion htr3
                  | str s => rw [hprd] at htr3; exact Bool.noConfusion htr3
                  | arr l2 => rw [hprd] at htr3; exact Bool.noConfusion htr3
                  | obj prkvs =>
                    refine exBind _ rfl ?_
                    refine exBind _ rfl ?_
                    refine exBindOk (pyLen_ok _ hss) (fun ssCnt => ?_)
                    refine exBind _ rfl ?_
                    refine exBindOk (pyLen_ok _ hco) (fun coCnt => ?_)
                    refine exBind _ rfl ?_
                    refine exBindOk (pyLen_ok _ hinf) (fun infCnt => ?_)
                    refine exBindOk (tripInfoBlock_ok _ hinfb) (fun infoLines => ?_)
                    refine exBind _ rfl ?_
                    refine exBindOk (pyLen_ok _ hhin) (fun hintCnt => ?_)
                    refine exBind _ rfl ?_
                    cases hpp : (jsonLookup lkvs "properties").getD (Json.obj []) with
                    | obj pkvs =>
                      refine exBind _ rfl ?_
                      exact ⟨_, rfl⟩
                    | null => rw [hpp] at hprops; exact Bool.noConfusion hprops
                    | bool b => rw [hpp] at hprops; exact Bool.noConfusion hprops
                    | num n => rw [hpp] at hprops; exact Bool.noConfusion hprops
                    | str s => rw [hpp] at hprops; exact Bool.noConfusion hprops
                    | arr l2 => rw [hpp] at hprops; exact Bool.noConfusion hprops
  · rw [if_neg ht]
    exact ⟨_, rfl⟩

theorem wfTrip_ok (data : Json) (h : wfTrip data = true) :
    ∃ out, summarize_trip data = Except.ok out := by
  cases data with
  | null => exact Bool.noConfusion h
  | bool b => exact Bool.noConfusion h
  | num n => exact Bool.noConfusion h
  | str s => exact Bool.noConfusion h
  | arr l => exact Bool.noConfusion h
  | obj kvs =>
    simp only [wfTrip, Bool.and_eq_true] at h
    obtain ⟨hjlen, hbr⟩ := h
    unfold summarize_trip
    refine exBind _ rfl ?_
    refine exBind _ rfl ?_
    refine exBindOk (pyLen_ok _ hjlen) (fun jCnt => ?_)
    by_cases ht : pyTruthy ((jsonLookup kvs "journeys").getD (Json.arr [])) = true
    · rw [if_pos ht] at hbr
      simp only [ht, if_true]
      cases hjt : (jsonLookup kvs "journeys").getD (Json.arr []) with
      | null => rw [hjt] at ht; exact Bool.noConfusion ht
      | bool b => rw [hjt] at hbr; exact Bool.noConfusion hbr
      | num n2 => rw [hjt] at hbr; exact Bool.noConfusion hbr
      | str s => rw [hjt] at hbr; exact Bool.noConfusion hbr
      | obj kvs2 => rw [hjt] at hbr; exact Bool.noConfusion hbr
      | arr l =>
        cases l with
        | nil => rw [hjt] at ht; exact Bool.noConfusion ht
        | cons e rs =>
          cases e with
          | null => rw [hjt] at hbr; exact Bool.noConfusion hbr
          | bool b => rw [hjt] at hbr; exact Bool.noConfusion hbr
          | num n2 => rw [hjt] at hbr; exact Bool.noConfusion hbr
          | str s => rw [hjt] at hbr; exact Bool.noConfusion hbr
          | arr l2 => rw [hjt] at hbr; exact Bool.noConfusion hbr
          | obj jkvs =>
            rw [hjt] at hbr
            simp only [Bool.and_eq_true] at hbr
            obtain ⟨⟨hlegs, hfare⟩, hlegb⟩ := hbr
            refine exBind _ rfl ?_
            refine exBind _ rfl ?_
            refine exBind _ rfl ?_
            refine exBind _ rfl ?_
            refine exBindOk (pyLen_ok _ hlegs) (fun legCnt => ?_)
            refine exBind _ rfl ?_
            cases hfr : (jsonLookup jkvs "fare").getD (Json.obj []) with
            | null => rw [hfr] at hfare; exact Bool.noConfusion hfare
            | bool b => rw [hfr] at hfare; exact Bool.noConfusion hfare
            | num n2 => rw [hfr] at hfare; exact Bool.noConfusion hfare
            | str s => rw [hfr] at hfare; exact Bool.noConfusion hfare
            | arr l2 => rw [hfr] at hfare; exact Bool.noConfusion hfare
            | obj fkvs =>
              rw [hfr] at hfare
              simp only [Bool.and_eq_true] at hfare
              obtain ⟨htlen, htb⟩ := hfare
              refine exBind _ rfl ?_
              refine exBindOk (pyLen_ok _ htlen) (fun tickCnt => ?_)
              refine exBindOk (tripTicketBlock_ok _ htb) (fun tickLines => ?_)
              refine exBindOk (tripLegBlock_ok _ hlegb) (fun legLines => ?_)
              exact ⟨_, rfl⟩
    · simp only [ht, Bool.false_eq_true, if_false]
      exact ⟨_, rfl⟩


/-- C6: none of the five category summarizers raises when a key is absent:
for every document whose *present* accessed fields have the shapes the code
applies them to (the `wf…` predicates constrain present fields only —
absent fields always satisfy them and fall back to the `None`/empty-mapping
defaults), the summarizer returns `ok`, producing placeholder text rather
than an error. -/
theorem summarizers_never_raise :
    (∀ d, wfStopFinder d = true → ∃ out, summarize_stop_finder d = Except.ok out) ∧
    (∀ d, wfDepartureMon d = true → ∃ out, summarize_departure_mon d = Except.ok out) ∧
    (∀ d, wfTrip d = true → ∃ out, summarize_trip d = Except.ok out) ∧
    (∀ d, wfAddInfo d = true → ∃ out, summarize_add_info d = Except.ok out) ∧
    (∀ d, wfCoord d = true → ∃ out, summarize_coord d = Except.ok out) :=
  ⟨wfStopFinder_ok, wfDepartureMon_ok, wfTrip_ok, wfAddInfo_ok, wfCoord_ok⟩

/-- Witness for C6: the empty document (every accessed key absent)
satisfies every safety condition and every summarizer returns `ok` on it. -/
theorem summarizers_never_raise_witness :
    (∃ out, summarize_stop_finder (Json.obj []) = Except.ok out) ∧
    (∃ out, summarize_departure_mon (Json.obj []) = Except.ok out) ∧
    (∃ out, summarize_trip (Json.obj []) = Except.ok out) ∧
    (∃ out, summarize_add_info (Json.obj []) = Except.ok out) ∧
    (∃ out, summarize_coord (Json.obj []) = Except.ok out) :=
  ⟨summarizers_never_raise.1 (Json.obj []) (by decide),
   summarizers_never_raise.2.1 (Json.obj []) (by decide),
   summarizers_never_raise.2.2.1 (Json.obj []) (by decide),
   summarizers_never_raise.2.2.2.1 (Json.obj []) (by decide),
   summarizers_never_raise.2.2.2.2 (Json.obj []) (by decide)⟩

@[simp] theorem err_bind {α β : Type} (e : String) (f : α → Except String β) :
    (Except.error e >>= f) = Except.error e := rfl

def startsWithChars : List Char → List Char → Bool
  | [], _ => true
  | _ :: _, [] => false
  | a :: as, b :: bs => a == b && startsWithChars as bs

def hasSubChars (needle : List Char) : List Char → Bool
  | [] => needle.isEmpty
  | b :: bs => startsWithChars needle (b :: bs) || hasSubChars needle bs

/-- Python `needle in hay` for strings: substring containment. -/
def pyIn (needle hay : String) : Bool := hasSubChars needle.data hay.data

/-- The filesystem the driver runs against: existence, size in bytes, and
the parsed content of each path.  `json.load` is modelled as total
(`fileJson`); a parse failure would propagate and terminate the process,
which no analysed claim depends on. -/
structure FileSys where
  pathExists : String → Bool
  fileSize : String → Nat
  fileJson : String → Json

/-- The fixed driver mapping of ten logical names to filenames, in
insertion order. -/
def filesList : List (String × String) :=
  [("stop_finder", "example_stop_finder_1_epp.json"),
   ("departure_mon_1", "example_departure_mon_1_central.json"),
   ("departure_mon_2", "example_departure_mon_2_circular_quay.json"),
   ("trip_1", "example_trip_1.json"),
   ("trip_2", "example_trip_2.json"),
   ("add_info_1", "example_add_info_1_all_modes.json"),
   ("add_info_2", "example_add_info_2_only_trains.json"),
   ("coord_gis", "example_coord_1_gis_point.json"),
   ("coord_bus", "example_coord_2_bus_point.json"),
   ("coord_poi", "example_coord_3_poi_point.json")]

/-- Python `f"{size / 1024:.1f}"`: kibibytes with one decimal place (the floating
rounding of `:.1f` is approximated by truncation; no analysed claim
depends on the final digit). -/
def formatKB (bytes : Nat) : String :=
  toString (bytes * 10 / 1024 / 10) ++ "." ++ toString (bytes * 10 / 1024 % 10)

/-- The 60-character separator line of equals signs. -/
def eqLine : String := String.mk (List.replicate 60 '=')

/-- The driver dispatch chain of `if ... in name` / `elif` tests. -/
def dispatchLines (name : String) (data : Json) : Except String (List String) :=
  if pyIn "stop_finder" name then summarize_stop_finder data
  else if pyIn "departure_mon" name then summarize_departure_mon data
  else if pyIn "trip" name then summarize_trip data
  else if pyIn "add_info" name then summarize_add_info data
  else if pyIn "coord" name then summarize_coord data
  else Except.ok []

/-- One iteration of the driver loop: skip with a message when the file is
missing, otherwise print the header, file size and category summary. -/
def processEntry (base : String) (fs : FileSys) (ent : String × String) :
    Except String (List String) :=
  let filepath := base ++ "/" ++ ent.2
  if !fs.pathExists filepath then Except.ok ["File not found: " ++ ent.2]
  else do
    let data := fs.fileJson filepath
    let lines ← dispatchLines ent.1 data
    pure (["\n" ++ eqLine, "ANALYZING: " ++ ent.2, eqLine,
      "File size: " ++ formatKB (fs.fileSize filepath) ++ " KB"] ++ lines)

/-- The driver loop over its entry list. -/
def processEntries (base : String) (fs : FileSys) :
    List (String × String) → Except String (List String)
  | [] => Except.ok []
  | ent :: rest => do
    let lines ← processEntry base fs ent
    let more ← processEntries base fs rest
    pure (lines ++ more)

/-- The driver `main`, parameterised by the generic structure analyzer it
could have consumed: the body never applies `analyzer`, mirroring that
`main` never calls `analyze_json_structure`. -/
def mainLinesWith (analyzer : Json → String → Nat → Nat → List (String × String))
    (base : String) (fs : FileSys) : Except String (List String) :=
  processEntries base fs filesList

/-- The driver `main` as shipped, with the real analyzer in scope. -/
def mainLines : String → FileSys → Except String (List String) :=
  mainLinesWith analyze_json_structure

theorem processEntries_split (base : String) (fs : FileSys) :
    ∀ (pre post : List (String × String)) (n f : String),
      fs.pathExists (base ++ "/" ++ f) = false →
      processEntries base fs (pre ++ (n, f) :: post) =
        (processEntries base fs pre >>= fun a =>
         processEntries base fs post >>= fun b =>
         pure (a ++ ("File not found: " ++ f) :: b)) := by
  intro pre
  induction pre with
  | nil =>
    intro post n f hm
    simp only [List.nil_append, processEntries, processEntry]
    rw [hm]
    cases hp : processEntries base fs post with
    | error e => simp
    | ok b => simp
  | cons hd tl ih =>
    intro post n f hm
    simp only [List.cons_append, processEntries, List.append_eq]
    rw [ih post n f hm]
    cases hpe : processEntry base fs hd with
    | error e => simp
    | ok lines =>
      simp only [ok_bind]
      cases hptl : processEntries base fs tl with
      | error e => simp
      | ok a2 =>
        simp only [ok_bind]
        cases hpost : processEntries base fs post with
        | error e => simp
        | ok b2 =>
          simp only [ok_bind, ex_pure_bind]
          simp [List.append_assoc]

/-- C7: when a fixture file in the fixed ten-file driver list is missing,
the driver output is exactly the output of the preceding entries, then the
`"File not found: <filename>"` line, then the output of the remaining entries:
the missing entry is neither parsed nor summarized, and iteration
continues without terminating. -/
theorem main_missing_file (base : String) (fs : FileSys)
    (pre post : List (String × String)) (n f : String)
    (hsplit : filesList = pre ++ (n, f) :: post)
    (hmiss : fs.pathExists (base ++ "/" ++ f) = false) :
    mainLines base fs =
      (processEntries base fs pre >>= fun a =>
       processEntries base fs post >>= fun b =>
       pure (a ++ ("File not found: " ++ f) :: b)) := by
  show processEntries base fs filesList = _
  rw [hsplit]
  exact processEntries_split base fs pre post n f hmiss

/-- Witness for C7: with every file missing, the fourth entry
(`trip_1`) contributes exactly its "File not found" line between the
outputs of the first three and the last six entries. -/
theorem main_missing_file_witness :
    mainLines "/base" ⟨fun _ => false, fun _ => 0, fun _ => Json.null⟩ =
      (processEntries "/base" ⟨fun _ => false, fun _ => 0, fun _ => Json.null⟩
        (filesList.take 3) >>= fun a =>
       processEntries "/base" ⟨fun _ => false, fun _ => 0, fun _ => Json.null⟩
        (filesList.drop 4) >>= fun b =>
       pure (a ++ ("File not found: " ++ "example_trip_1.json") :: b)) :=
  main_missing_file "/base" ⟨fun _ => false, fun _ => 0, fun _ => Json.null⟩
    (filesList.take 3) (filesList.drop 4) "trip_1" "example_trip_1.json"
    (by decide) rfl


/-- The category order of the dispatch, as the spec words it. -/
def categoryOrder : List String :=
  ["stop_finder", "departure_mon", "trip", "add_info", "coord"]

/-- Dispatch as the spec words it: the first category in `categoryOrder`
occurring as a substring of the logical name wins. -/
def firstMatchingCategory (name : String) : Option String :=
  categoryOrder.find? (fun c => pyIn c name)

/-- C8: the driver if/elif chain dispatches to exactly the summarizer of
the first category — in the order stop_finder, departure_mon, trip,
add_info, coord — occurring as a substring of the logical name
(first-match-wins), and to none when no category matches. -/
theorem dispatch_first_match (name : String) (data : Json) :
    dispatchLines name data =
      match firstMatchingCategory name with
      | some "stop_finder" => summarize_stop_finder data
      | some "departure_mon" => summarize_departure_mon data
      | some "trip" => summarize_trip data
      | some "add_info" => summarize_add_info data
      | some "coord" => summarize_coord data
      | _ => Except.ok [] := by
  by_cases h1 : pyIn "stop_finder" name = true
  · simp [dispatchLines, firstMatchingCategory, categoryOrder, List.find?, h1]
  · by_cases h2 : pyIn "departure_mon" name = true
    · simp [dispatchLines, firstMatchingCategory, categoryOrder, List.find?, h1, h2]
    · by_cases h3 : pyIn "trip" name = true
      · simp [dispatchLines, firstMatchingCategory, categoryOrder, List.find?,
          h1, h2, h3]
      · by_cases h4 : pyIn "add_info" name = true
        · simp [dispatchLines, firstMatchingCategory, categoryOrder, List.find?,
            h1, h2, h3, h4]
        · by_cases h5 : pyIn "coord" name = true
          · simp [dispatchLines, firstMatchingCategory, categoryOrder, List.find?,
              h1, h2, h3, h4, h5]
          · simp [dispatchLines, firstMatchingCategory, categoryOrder, List.find?,
              h1, h2, h3, h4, h5]

/-- C9: the driver output is identical to that of a driver from which the
generic structure analyzer is removed (replaced by one returning nothing):
`main` never consumes the result of `analyze_json_structure`. -/
theorem driver_ignores_analyzer (base : String) (fs : FileSys) :
    mainLines base fs = mainLinesWith (fun _ _ _ _ => []) base fs := rfl

end AnalyzeResponses
